import Mathlib

/-!
Shallow embedding of the `fv1-asm` crate (FV-1 assembler/disassembler toolchain):
the instruction model, the instruction encoder and decoder
(`src/codegen/encoder.rs`, `src/codegen/decoder.rs`), the program/AST layer
(`src/ast.rs`), the assembler and binary container (`src/codegen/assembler.rs`),
the disassembler (`src/codegen/disassembler.rs`), and the parser fragments
relevant to CHO-flag parsing (`src/parser.rs`).

Modelling conventions:
* Rust `u32` machine words are modelled as `Nat`.  In the encoder every field is
  masked to its width before being shifted or or-ed, so no computation ever
  reaches `2^32`; the `Nat` expressions therefore coincide with the `u32` ones.
  Where a genuine wrapping cast occurs (`i8 as u32`, `u32 as i8`, `u32 as i32`)
  an explicit two's-complement cast function is used.
* Rust `f32`/`f64` values are modelled by `FloatVal`: a finite value is carried
  as its exact rational value (every finite IEEE-754 float is a dyadic
  rational), plus the three non-finite values.  The only float operations the
  code performs on coefficients are multiplication by the constants 2^14 / 2^9
  (exact in `f32` for the range-checked inputs, since it only shifts the
  exponent), `round` (half away from zero), comparisons, and division of a
  small integer (|n| < 2^24, hence exactly representable) by 2^14 / 2^9
  (again exact).  All of these are exact rational operations in the ranges in
  which the code uses them, so the rational model computes the same values as
  the `f32` code.
* Rust `Vec` is a Lean `List`; `HashMap<String, usize>` is an association list
  where insertion conses to the front and lookup takes the first match, which
  reproduces the map's insert-overwrites/get semantics for every lookup.
-/

namespace FV1

/-- Hardware constant from `constants.rs`: maximum instructions in a program. -/
def MAX_INSTRUCTIONS : Nat := 128

/-- Hardware constant from `constants.rs`: delay RAM size in samples. -/
def DELAY_RAM_SIZE : Nat := 32768

/-- Model of an `f32`/`f64` value: exact rational for finite values, plus the
non-finite values. -/
inductive FloatVal where
  | finite (q : ℚ)
  | inf
  | negInf
  | nan
deriving DecidableEq, Repr

namespace FloatVal

/-- Rust `f32::is_finite`. -/
def is_finite : FloatVal → Bool
  | finite _ => true
  | _ => false

/-- Rust range test `(lo..hi).contains(&v)` on floats: `lo <= v && v < hi`.
NaN compares false on both, `inf` fails `v < hi`, `-inf` fails `lo <= v`. -/
def containedIn (v : FloatVal) (lo hi : ℚ) : Bool :=
  match v with
  | finite q => decide (lo ≤ q) && decide (q < hi)
  | _ => false

end FloatVal

/-- Rust `f32::round`: round to nearest, ties away from zero. -/
def roundHalfAway (q : ℚ) : ℤ :=
  if 0 ≤ q then ⌊q + (1 : ℚ) / 2⌋ else ⌈q - (1 : ℚ) / 2⌉

/-- Two's-complement cast `u32 as i32`. -/
def u32ToI32 (n : ℕ) : ℤ :=
  if n < 2147483648 then (n : ℤ) else (n : ℤ) - 4294967296

/-- Two's-complement cast `i8 as u32` (sign-extend, reinterpret). -/
def i8ToU32 (x : ℤ) : ℕ :=
  (x % 4294967296).toNat

/-- Two's-complement cast `u32 as i8` (truncate to 8 bits, reinterpret). -/
def u32ToI8 (n : ℕ) : ℤ :=
  let m := n % 256
  if m < 128 then (m : ℤ) else (m : ℤ) - 256

/-- `register.rs`: FV-1 registers. `REG n` models `REG(u8)`. -/
inductive Register where
  | ACC
  | ADCL
  | ADCR
  | DACL
  | DACR
  | REG (n : ℕ)
  | ADDR_PTR
  | LR
  | SIN0_RATE
  | SIN0_RANGE
  | SIN1_RATE
  | SIN1_RANGE
  | RMP0_RATE
  | RMP0_RANGE
  | RMP1_RATE
  | RMP1_RANGE
deriving DecidableEq, Repr

/-- `register.rs`: LFO oscillators. -/
inductive Lfo where
  | SIN0
  | SIN1
  | RMP0
  | RMP1
deriving DecidableEq, Repr

/-- `instruction.rs`: skip conditions. -/
inductive SkipCondition where
  | GEZ
  | NEG
  | ZRC
  | ZRO
  | RUN
deriving DecidableEq, Repr

/-- `instruction.rs`: CHO modes. -/
inductive ChoMode where
  | RDA
  | SOF
  | RDAL
deriving DecidableEq, Repr

/-- `instruction.rs`: CHO flags. -/
structure ChoFlags where
  rptr2 : Bool
  na : Bool
  compc : Bool
  compa : Bool
  rptr2_select : Bool
deriving DecidableEq, Repr

/-- `instruction.rs`: the FV-1 instruction set.  `u16` fields (`addr`, `freq`,
`amplitude`) and the `u32` field `mask` are modelled as `Nat`; the `i8` skip
offset as `Int`; `f32` coefficients as `FloatVal`. -/
inductive Instruction where
  | RDAX (reg : Register) (coeff : FloatVal)
  | RDA (addr : ℕ) (coeff : FloatVal)
  | RMPA (coeff : FloatVal)
  | WRAX (reg : Register) (coeff : FloatVal)
  | WRA (addr : ℕ) (coeff : FloatVal)
  | WRAP (addr : ℕ) (coeff : FloatVal)
  | MULX (reg : Register)
  | RDFX (reg : Register) (coeff : FloatVal)
  | ABSA
  | LDAX (reg : Register)
  | RDFX2 (reg : Register) (coeff : FloatVal)
  | SOF (coeff : FloatVal) (offset : FloatVal)
  | AND (mask : ℕ)
  | OR (mask : ℕ)
  | XOR (mask : ℕ)
  | SHL
  | SHR
  | CLR
  | NOP
  | EXP (coeff : FloatVal) (offset : FloatVal)
  | LOG (coeff : FloatVal) (offset : FloatVal)
  | SKP (condition : SkipCondition) (offset : ℤ)
  | WLDS (lfo : Lfo) (freq : ℕ) (amplitude : ℕ)
  | JAM (lfo : Lfo)
  | CHO (mode : ChoMode) (lfo : Lfo) (flags : ChoFlags) (addr : ℕ)
deriving DecidableEq, Repr

/-- `error.rs`: codegen errors.  Numeric payloads are carried as the values
themselves. -/
inductive CodegenError where
  | CoefficientOutOfRange (value : FloatVal)
  | AddressOutOfRange (addr max : ℕ)
  | ProgramTooLarge (size max : ℕ)
  | InvalidOpcode (opcode : ℕ)
  | InvalidRegister (bits : ℕ)
  | InvalidSkipCondition (bits : ℕ)
  | InvalidLfo (bits : ℕ)
  | InvalidChoMode (bits : ℕ)
  | InvalidBinarySize (size expected : ℕ)
deriving DecidableEq, Repr

/-- `encoder.rs` `encode_register`: register to 6-bit field.  `REG(n)` with
`n < 32` is offset by 16; `ACC` and every register not otherwise listed
(the eight LFO rate/range registers, and `REG(n)` for `n ≥ 32`) fall through
to code 0. -/
def encode_register (reg : Register) : Except CodegenError ℕ :=
  match reg with
  | .ADCL => .ok 0b00000
  | .ADCR => .ok 0b00001
  | .DACL => .ok 0b00010
  | .DACR => .ok 0b00011
  | .ADDR_PTR => .ok 0b00100
  | .LR => .ok 0b00101
  | .REG n => if n < 32 then .ok (n + 16) else .ok 0
  | .ACC => .ok 0
  | _ => .ok 0

/-- `encoder.rs` `encode_s114`: S1.14 fixed-point encode.  Rejects non-finite
values and values outside `[-2.0, 2.0)`; otherwise scales by 2^14, rounds
half-away-from-zero, and keeps the low 15 bits of the two's-complement
result. -/
def encode_s114 (value : FloatVal) : Except CodegenError ℕ :=
  if !value.is_finite || !value.containedIn (-2) 2 then
    .error (.CoefficientOutOfRange value)
  else
    match value with
    | .finite q => .ok ((roundHalfAway (q * 16384) % 32768).toNat)
    | _ => .error (.CoefficientOutOfRange value)

/-- `encoder.rs` `encode_s10`: S.10 fixed-point encode.  Rejects non-finite
values and values outside `[-1.0, 1.0)`; otherwise scales by 2^9, rounds
half-away-from-zero, and keeps the low 11 bits of the two's-complement
result. -/
def encode_s10 (value : FloatVal) : Except CodegenError ℕ :=
  if !value.is_finite || !value.containedIn (-1) 1 then
    .error (.CoefficientOutOfRange value)
  else
    match value with
    | .finite q => .ok ((roundHalfAway (q * 512) % 2048).toNat)
    | _ => .error (.CoefficientOutOfRange value)

/-- `encoder.rs` `encode_address`: 16-bit delay address, validated against the
delay RAM size. -/
def encode_address (addr : ℕ) : Except CodegenError ℕ :=
  let max := DELAY_RAM_SIZE - 1
  if addr > max then .error (.AddressOutOfRange addr max) else .ok addr

/-- `encoder.rs` `encode_skip_condition`: skip condition to 3-bit field. -/
def encode_skip_condition (condition : SkipCondition) : ℕ :=
  match condition with
  | .RUN => 0b000
  | .NEG => 0b001
  | .GEZ => 0b010
  | .ZRO => 0b011
  | .ZRC => 0b100

/-- `encoder.rs` `encode_lfo`: LFO to 2-bit field. -/
def encode_lfo (lfo : Lfo) : ℕ :=
  match lfo with
  | .SIN0 => 0b00
  | .SIN1 => 0b01
  | .RMP0 => 0b10
  | .RMP1 => 0b11

/-- `encoder.rs` `encode_cho_mode`: CHO mode to 2-bit field. -/
def encode_cho_mode (mode : ChoMode) : ℕ :=
  match mode with
  | .RDA => 0b00
  | .SOF => 0b10
  | .RDAL => 0b11

/-- `encoder.rs` `encode_cho_flags`: CHO flags to 6-bit field. -/
def encode_cho_flags (flags : ChoFlags) : ℕ :=
  let b1 : ℕ := if flags.rptr2 then 0b100000 else 0
  let b2 : ℕ := if flags.na then 0b010000 else 0
  let b3 : ℕ := if flags.compc then 0b001000 else 0
  let b4 : ℕ := if flags.compa then 0b000100 else 0
  let b5 : ℕ := if flags.rptr2_select then 0b000010 else 0
  b1 ||| b2 ||| b3 ||| b4 ||| b5

/-- `encoder.rs` `encode_instruction`: one instruction to one 32-bit word. -/
def encode_instruction (inst : Instruction) : Except CodegenError ℕ :=
  match inst with
  | .RDAX reg coeff => do
      let opcode : ℕ := 0b00000 <<< 27
      let reg_bits := (← encode_register reg) <<< 21
      let coeff_bits := ((← encode_s114 coeff) &&& 0x7FFF) <<< 6
      .ok (opcode ||| reg_bits ||| coeff_bits)
  | .RDA addr coeff => do
      let opcode : ℕ := 0b00001 <<< 27
      let addr_bits := (← encode_address addr) <<< 11
      let coeff_bits := (← encode_s114 coeff) &&& 0x7FF
      .ok (opcode ||| addr_bits ||| coeff_bits)
  | .RMPA coeff => do
      let opcode : ℕ := 0b00010 <<< 27
      let coeff_bits := (← encode_s114 coeff) &&& 0x7FFFFF
      .ok (opcode ||| coeff_bits)
  | .WRAX reg coeff => do
      let opcode : ℕ := 0b00110 <<< 27
      let reg_bits := (← encode_register reg) <<< 21
      let coeff_bits := ((← encode_s114 coeff) &&& 0x7FFF) <<< 6
      .ok (opcode ||| reg_bits ||| coeff_bits)
  | .WRA addr coeff => do
      let opcode : ℕ := 0b00111 <<< 27
      let addr_bits := (← encode_address addr) <<< 11
      let coeff_bits := (← encode_s114 coeff) &&& 0x7FF
      .ok (opcode ||| addr_bits ||| coeff_bits)
  | .WRAP addr coeff => do
      let opcode : ℕ := 0b01000 <<< 27
      let addr_bits := (← encode_address addr) <<< 11
      let coeff_bits := (← encode_s114 coeff) &&& 0x7FF
      .ok (opcode ||| addr_bits ||| coeff_bits)
  | .MULX reg => do
      let opcode : ℕ := 0b01010 <<< 27
      let reg_bits := (← encode_register reg) <<< 21
      .ok (opcode ||| reg_bits)
  | .RDFX reg coeff => do
      let opcode : ℕ := 0b01001 <<< 27
      let reg_bits := (← encode_register reg) <<< 21
      let coeff_bits := ((← encode_s114 coeff) &&& 0x7FFF) <<< 6
      .ok (opcode ||| reg_bits ||| coeff_bits)
  | .RDFX2 reg coeff => do
      let opcode : ℕ := 0b01100 <<< 27
      let reg_bits := (← encode_register reg) <<< 21
      let coeff_bits := ((← encode_s114 coeff) &&& 0x7FFF) <<< 6
      .ok (opcode ||| reg_bits ||| coeff_bits)
  | .LDAX reg => do
      let opcode : ℕ := 0b00101 <<< 27
      let reg_bits := (← encode_register reg) <<< 21
      .ok (opcode ||| reg_bits)
  | .ABSA => .ok (0b01011 <<< 27)
  | .SOF coeff offset => do
      let opcode : ℕ := 0b01101 <<< 27
      let coeff_bits := ((← encode_s114 coeff) &&& 0xFFFF) <<< 11
      let offset_bits := (← encode_s10 offset) &&& 0x7FF
      .ok (opcode ||| coeff_bits ||| offset_bits)
  | .AND mask => .ok ((0b01111 <<< 27) ||| (mask &&& 0xFFFFFF))
  | .OR mask => .ok ((0b10000 <<< 27) ||| (mask &&& 0xFFFFFF))
  | .XOR mask => .ok ((0b10001 <<< 27) ||| (mask &&& 0xFFFFFF))
  | .SHL => .ok (0b10010 <<< 27)
  | .SHR => .ok (0b10011 <<< 27)
  | .CLR => .ok (0b01110 <<< 27)
  | .NOP => .ok 0x00000000
  | .EXP coeff offset => do
      let opcode : ℕ := 0b10100 <<< 27
      let coeff_bits := ((← encode_s114 coeff) &&& 0xFFFF) <<< 11
      let offset_bits := (← encode_s10 offset) &&& 0x7FF
      .ok (opcode ||| coeff_bits ||| offset_bits)
  | .LOG coeff offset => do
      let opcode : ℕ := 0b10101 <<< 27
      let coeff_bits := ((← encode_s114 coeff) &&& 0xFFFF) <<< 11
      let offset_bits := (← encode_s10 offset) &&& 0x7FF
      .ok (opcode ||| coeff_bits ||| offset_bits)
  | .SKP condition offset => do
      let opcode : ℕ := 0b10110 <<< 27
      let cond_bits := encode_skip_condition condition <<< 24
      let offset_bits := (i8ToU32 offset &&& 0x3F) <<< 18
      .ok (opcode ||| cond_bits ||| offset_bits)
  | .WLDS lfo freq amplitude => do
      let opcode : ℕ := 0b10111 <<< 27
      let lfo_bits := encode_lfo lfo <<< 25
      let freq_bits := (freq &&& 0x1FF) <<< 9
      let amp_bits := amplitude &&& 0x1FF
      .ok (opcode ||| lfo_bits ||| freq_bits ||| amp_bits)
  | .JAM lfo => do
      let opcode : ℕ := 0b11000 <<< 27
      let lfo_bits := encode_lfo lfo <<< 25
      .ok (opcode ||| lfo_bits)
  | .CHO mode lfo flags addr => do
      let opcode : ℕ := 0b11001 <<< 27
      let mode_bits := encode_cho_mode mode <<< 24
      let lfo_bits := encode_lfo lfo <<< 22
      let flags_bits := encode_cho_flags flags <<< 16
      let addr_bits := (← encode_address addr) &&& 0xFFFF
      .ok (opcode ||| mode_bits ||| lfo_bits ||| flags_bits ||| addr_bits)

/-- `decoder.rs` `decode_register`: 6-bit field back to a register. -/
def decode_register (bits : ℕ) : Except CodegenError Register :=
  if bits = 0b00000 then .ok .ADCL
  else if bits = 0b00001 then .ok .ADCR
  else if bits = 0b00010 then .ok .DACL
  else if bits = 0b00011 then .ok .DACR
  else if bits = 0b00100 then .ok .ADDR_PTR
  else if bits = 0b00101 then .ok .LR
  else if 16 ≤ bits ∧ bits < 48 then .ok (.REG (bits - 16))
  else .error (.InvalidRegister bits)

/-- `decoder.rs` `decode_s114`: sign-extend from bit 14, reinterpret as `i32`,
divide by 2^14.  (Total: never returns an error.) -/
def decode_s114 (bits : ℕ) : Except CodegenError FloatVal :=
  if bits &&& 0x4000 ≠ 0 then
    .ok (.finite ((u32ToI32 (bits ||| 0xFFFF8000) : ℚ) / 16384))
  else
    .ok (.finite ((u32ToI32 bits : ℚ) / 16384))

/-- `decoder.rs` `decode_s10`: sign-extend from bit 10, reinterpret as `i32`,
divide by 2^9.  (Total: never returns an error.) -/
def decode_s10 (bits : ℕ) : Except CodegenError FloatVal :=
  if bits &&& 0x400 ≠ 0 then
    .ok (.finite ((u32ToI32 (bits ||| 0xFFFFF800) : ℚ) / 512))
  else
    .ok (.finite ((u32ToI32 bits : ℚ) / 512))

/-- `decoder.rs` `decode_skip_condition`. -/
def decode_skip_condition (bits : ℕ) : Except CodegenError SkipCondition :=
  if bits = 0b000 then .ok .RUN
  else if bits = 0b001 then .ok .NEG
  else if bits = 0b010 then .ok .GEZ
  else if bits = 0b011 then .ok .ZRO
  else if bits = 0b100 then .ok .ZRC
  else .error (.InvalidSkipCondition bits)

/-- `decoder.rs` `decode_lfo`. -/
def decode_lfo (bits : ℕ) : Except CodegenError Lfo :=
  if bits = 0b00 then .ok .SIN0
  else if bits = 0b01 then .ok .SIN1
  else if bits = 0b10 then .ok .RMP0
  else if bits = 0b11 then .ok .RMP1
  else .error (.InvalidLfo bits)

/-- `decoder.rs` `decode_cho_mode`. -/
def decode_cho_mode (bits : ℕ) : Except CodegenError ChoMode :=
  if bits = 0b00 then .ok .RDA
  else if bits = 0b10 then .ok .SOF
  else if bits = 0b11 then .ok .RDAL
  else .error (.InvalidChoMode bits)

/-- `decoder.rs` `decode_cho_flags`. -/
def decode_cho_flags (bits : ℕ) : ChoFlags :=
  { rptr2 := bits &&& 0b100000 ≠ 0
    na := bits &&& 0b010000 ≠ 0
    compc := bits &&& 0b001000 ≠ 0
    compa := bits &&& 0b000100 ≠ 0
    rptr2_select := bits &&& 0b000010 ≠ 0 }

/-- `decoder.rs` `decode_instruction`: one 32-bit word back to an instruction.
The all-zero word is special-cased to NOP before opcode extraction; the match
on the 5-bit opcode is rendered as an if-chain. -/
def decode_instruction (word : ℕ) : Except CodegenError Instruction :=
  if word = 0x00000000 then .ok .NOP else
  let opcode := (word >>> 27) &&& 0x1F
  if opcode = 0b00000 then do
    let reg ← decode_register ((word >>> 21) &&& 0x3F)
    let coeff ← decode_s114 ((word >>> 6) &&& 0x7FFF)
    .ok (.RDAX reg coeff)
  else if opcode = 0b00001 then do
    let addr := (word >>> 11) &&& 0xFFFF
    let coeff ← decode_s114 (word &&& 0x7FF)
    .ok (.RDA addr coeff)
  else if opcode = 0b00010 then do
    let coeff ← decode_s114 (word &&& 0x7FFFFF)
    .ok (.RMPA coeff)
  else if opcode = 0b00110 then do
    let reg ← decode_register ((word >>> 21) &&& 0x3F)
    let coeff ← decode_s114 ((word >>> 6) &&& 0x7FFF)
    .ok (.WRAX reg coeff)
  else if opcode = 0b00111 then do
    let addr := (word >>> 11) &&& 0xFFFF
    let coeff ← decode_s114 (word &&& 0x7FF)
    .ok (.WRA addr coeff)
  else if opcode = 0b01000 then do
    let addr := (word >>> 11) &&& 0xFFFF
    let coeff ← decode_s114 (word &&& 0x7FF)
    .ok (.WRAP addr coeff)
  else if opcode = 0b01010 then do
    let reg ← decode_register ((word >>> 21) &&& 0x3F)
    .ok (.MULX reg)
  else if opcode = 0b01001 then do
    let reg ← decode_register ((word >>> 21) &&& 0x3F)
    let coeff ← decode_s114 ((word >>> 6) &&& 0x7FFF)
    .ok (.RDFX reg coeff)
  else if opcode = 0b01100 then do
    let reg ← decode_register ((word >>> 21) &&& 0x3F)
    let coeff ← decode_s114 ((word >>> 6) &&& 0x7FFF)
    .ok (.RDFX2 reg coeff)
  else if opcode = 0b00101 then do
    let reg ← decode_register ((word >>> 21) &&& 0x3F)
    .ok (.LDAX reg)
  else if opcode = 0b01011 then .ok .ABSA
  else if opcode = 0b01101 then do
    let coeff ← decode_s114 ((word >>> 11) &&& 0xFFFF)
    let offset ← decode_s10 (word &&& 0x7FF)
    .ok (.SOF coeff offset)
  else if opcode = 0b01111 then .ok (.AND (word &&& 0xFFFFFF))
  else if opcode = 0b10000 then .ok (.OR (word &&& 0xFFFFFF))
  else if opcode = 0b10001 then .ok (.XOR (word &&& 0xFFFFFF))
  else if opcode = 0b10010 then .ok .SHL
  else if opcode = 0b10011 then .ok .SHR
  else if opcode = 0b01110 then .ok .CLR
  else if opcode = 0b10100 then do
    let coeff ← decode_s114 ((word >>> 11) &&& 0xFFFF)
    let offset ← decode_s10 (word &&& 0x7FF)
    .ok (.EXP coeff offset)
  else if opcode = 0b10101 then do
    let coeff ← decode_s114 ((word >>> 11) &&& 0xFFFF)
    let offset ← decode_s10 (word &&& 0x7FF)
    .ok (.LOG coeff offset)
  else if opcode = 0b10110 then do
    let condition ← decode_skip_condition ((word >>> 24) &&& 0x07)
    let offset := u32ToI8 ((word >>> 18) &&& 0x3F)
    .ok (.SKP condition offset)
  else if opcode = 0b10111 then do
    let lfo ← decode_lfo ((word >>> 25) &&& 0x03)
    let freq := (word >>> 9) &&& 0x1FF
    let amplitude := word &&& 0x1FF
    .ok (.WLDS lfo freq amplitude)
  else if opcode = 0b11000 then do
    let lfo ← decode_lfo ((word >>> 25) &&& 0x03)
    .ok (.JAM lfo)
  else if opcode = 0b11001 then do
    let mode ← decode_cho_mode ((word >>> 24) &&& 0x03)
    let lfo ← decode_lfo ((word >>> 22) &&& 0x03)
    let flags := decode_cho_flags ((word >>> 16) &&& 0x3F)
    let addr := word &&& 0xFFFF
    .ok (.CHO mode lfo flags addr)
  else .error (.InvalidOpcode opcode)

/-- `ast.rs`: value in a directive. -/
inductive Value where
  | Float (f : FloatVal)
  | Integer (i : ℤ)
  | Identifier (s : String)
deriving DecidableEq, Repr

/-- `ast.rs`: assembly directives. -/
inductive Directive where
  | Equate (name : String) (value : Value)
  | MemoryAllocation (name : String) (size : ℕ)
  | SpinAsm (version : String)
deriving DecidableEq, Repr

/-- `ast.rs`: program statement. -/
inductive Statement where
  | Label (name : String)
  | Instruction (inst : Instruction)
  | LabeledInstruction (label : String) (instruction : Instruction)
deriving DecidableEq, Repr

/-- `ast.rs`: a complete program.  The `HashMap<String, usize>` label table is
modelled as an association list: `add_statement` conses the new binding to the
front and `resolve_label` takes the first match, which reproduces the map's
insert-overwrites/get behaviour. -/
structure Program where
  directives : List Directive
  statements : List Statement
  labels : List (String × ℕ)
deriving DecidableEq, Repr

namespace Program

/-- `Program::new`. -/
def new : Program := ⟨[], [], []⟩

/-- `Program::instructions`: all instructions in order, excluding standalone
labels. -/
def instructions (p : Program) : List Instruction :=
  p.statements.filterMap fun s =>
    match s with
    | .Instruction i => some i
    | .LabeledInstruction _ instruction => some instruction
    | .Label _ => none

/-- `Program::resolve_label`. -/
def resolve_label (p : Program) (label : String) : Option ℕ :=
  p.labels.lookup label

/-- `Program::instruction_count`: statements that carry an instruction. -/
def instruction_count (p : Program) : ℕ :=
  (p.statements.filter fun s =>
    match s with
    | .Instruction _ => true
    | .LabeledInstruction _ _ => true
    | .Label _ => false).length

/-- `Program::add_statement`: append a statement, recording a label for the
next instruction index where applicable. -/
def add_statement (p : Program) (statement : Statement) : Program :=
  let p' :=
    match statement with
    | .Label name => { p with labels := (name, p.instruction_count) :: p.labels }
    | .LabeledInstruction label _ =>
        { p with labels := (label, p.instruction_count) :: p.labels }
    | .Instruction _ => p
  { p' with statements := p'.statements ++ [statement] }

end Program

/-- `assembler.rs`: compiled FV-1 binary (a vector of 32-bit words). -/
structure Binary where
  instructions : List ℕ
deriving DecidableEq, Repr

/-- `assembler.rs`: the assembler and its configuration flag. -/
structure Assembler where
  optimize : Bool
deriving DecidableEq, Repr

namespace Assembler

/-- `Assembler::new`. -/
def new : Assembler := ⟨false⟩

/-- `Assembler::optimize_binary`: the optimization hook, an identity pass. -/
def optimize_binary (_a : Assembler) (binary : Binary) : Except CodegenError Binary :=
  .ok binary

/-- The encode-and-push loop inside `Assembler::assemble`: encode each
instruction left to right, aborting at the first failure. -/
def encodeAll : List Instruction → Except CodegenError (List ℕ)
  | [] => .ok []
  | inst :: rest => do
      let encoded ← encode_instruction inst
      let tail ← encodeAll rest
      .ok (encoded :: tail)

/-- `Assembler::assemble`: size check, encode loop, NOP padding to 128 words,
then the (identity) optimization pass if enabled. -/
def assemble (a : Assembler) (program : Program) : Except CodegenError Binary := do
  let instructions := program.instructions
  if instructions.length > MAX_INSTRUCTIONS then
    .error (.ProgramTooLarge instructions.length MAX_INSTRUCTIONS)
  else do
    let ws ← encodeAll instructions
    let padded := ws ++ List.replicate (MAX_INSTRUCTIONS - ws.length) 0x00000000
    let binary ← if a.optimize then a.optimize_binary ⟨padded⟩ else .ok ⟨padded⟩
    .ok binary

end Assembler

namespace Binary

/-- Rust `u32::to_be_bytes`: the four big-endian bytes of a 32-bit word. -/
def to_be_bytes (w : ℕ) : List ℕ :=
  [w / 2 ^ 24 % 256, w / 2 ^ 16 % 256, w / 2 ^ 8 % 256, w % 256]

/-- Rust `u32::from_be_bytes`. -/
def from_be_bytes (b0 b1 b2 b3 : ℕ) : ℕ :=
  b0 * 2 ^ 24 + b1 * 2 ^ 16 + b2 * 2 ^ 8 + b3

/-- `Binary::to_bytes`: concatenated big-endian bytes of every word. -/
def to_bytes (b : Binary) : List ℕ :=
  (b.instructions.map to_be_bytes).flatten

/-- The `chunks_exact(4)` word-rebuilding loop of `Binary::from_bytes`
(a trailing chunk shorter than 4 is dropped, as `chunks_exact` does). -/
def wordsOfBytes : List ℕ → List ℕ
  | b0 :: b1 :: b2 :: b3 :: rest => from_be_bytes b0 b1 b2 b3 :: wordsOfBytes rest
  | _ => []

/-- `Binary::from_bytes`: reject any buffer whose length is not 512, else
rebuild the 128 big-endian words. -/
def from_bytes (bytes : List ℕ) : Except CodegenError Binary :=
  if bytes.length ≠ 512 then
    .error (.InvalidBinarySize bytes.length 512)
  else
    .ok ⟨wordsOfBytes bytes⟩

/-- Uppercase hex digit of `n % 16`, as rendered by Rust formatting. -/
def hexDigit (n : ℕ) : Char :=
  if n % 16 < 10 then Char.ofNat (48 + n % 16) else Char.ofNat (55 + n % 16)

/-- Rust `{:02X}` for a byte-sized value. -/
def hex2 (n : ℕ) : List Char :=
  [hexDigit (n / 16), hexDigit n]

/-- Rust `{:04X}` for a 16-bit-sized value. -/
def hex4 (n : ℕ) : List Char :=
  hex2 (n / 256) ++ hex2 (n % 256)

/-- The per-record checksum computed in `Binary::to_hex`: two's complement of
the low byte of length + address-high + address-low + sum of data bytes. -/
def hexChecksum (addr : ℕ) (chunk : List ℕ) : ℕ :=
  (256 - ((chunk.length + addr / 256 + addr % 256 + chunk.sum) % 256)) % 256

/-- One Intel-HEX data record line, as built by the loop body of
`Binary::to_hex` (strings are modelled as character lists). -/
def hexRecord (addr : ℕ) (chunk : List ℕ) : List Char :=
  ':' :: hex2 chunk.length ++ hex4 addr ++ ['0', '0']
    ++ (chunk.map hex2).flatten ++ hex2 (hexChecksum addr chunk) ++ ['\n']

/-- The `bytes.chunks(16)` iterator of `Binary::to_hex`: full 16-byte chunks,
with a shorter final chunk if one remains. -/
def chunks16 : List ℕ → List (List ℕ)
  | b1 :: b2 :: b3 :: b4 :: b5 :: b6 :: b7 :: b8 ::
      b9 :: b10 :: b11 :: b12 :: b13 :: b14 :: b15 :: b16 :: rest =>
      [b1, b2, b3, b4, b5, b6, b7, b8, b9, b10, b11, b12, b13, b14, b15, b16]
        :: chunks16 rest
  | [] => []
  | l => [l]

/-- The fixed Intel-HEX end-of-file record line. -/
def eofRecord : List Char :=
  [':', '0', '0', '0', '0', '0', '0', '0', '1', 'F', 'F', '\n']

/-- `Binary::to_hex`: 16-byte data records, then the end-of-file record.
The output `String` is modelled as its character list. -/
def to_hex (b : Binary) : List Char :=
  ((chunks16 b.to_bytes).enum.map fun ic => hexRecord (ic.1 * 16) ic.2).flatten
    ++ eofRecord

end Binary

/-- `disassembler.rs`: the disassembler and its configuration flag. -/
structure Disassembler where
  strip_nops : Bool
deriving DecidableEq, Repr

namespace Disassembler

/-- `Disassembler::new`: trailing-NOP stripping defaults to on. -/
def new : Disassembler := ⟨true⟩

/-- The word loop of `Disassembler::disassemble`: decode each word; with
stripping enabled, a NOP word whose whole remaining tail (itself included) is
all zero words ends emission. -/
def disassembleWords (strip : Bool) : List ℕ → Except CodegenError (List Statement)
  | [] => .ok []
  | w :: rest => do
      let inst ← decode_instruction w
      if strip = true ∧ inst = .NOP ∧ (w :: rest).all (fun x => x == 0x00000000) then
        .ok []
      else do
        let tail ← disassembleWords strip rest
        .ok (.Instruction inst :: tail)

/-- `Disassembler::disassemble`: decode the binary's words into a program by
appending an `Instruction` statement for each emitted word. -/
def disassemble (d : Disassembler) (binary : Binary) : Except CodegenError Program := do
  let stmts ← disassembleWords d.strip_nops binary.instructions
  .ok (stmts.foldl Program.add_statement Program.new)

end Disassembler

set_option maxHeartbeats 1600000 in
/-- `lexer.rs`: the token type.  Numeric payloads are modelled like the
instruction fields (`f32` as `FloatVal`, `i64` as `Int`, `u8` as `Nat`). -/
inductive Token where
  | RDAX | RDA | WRAX | WRA | WRAP | RMPA | MULX | RDFX | ABSA | LDAX
  | RDFX2 | SOF | AND | OR | XOR | SHL | SHR | CLR | NOP | EXP | LOG
  | SKP | WLDS | JAM | CHO
  | ACC | ADCL | ADCR | DACL | DACR | ADDR_PTR | LR
  | REG (n : ℕ)
  | POT (n : ℕ)
  | SIN0 | SIN1 | RMP0 | RMP1
  | SIN0_RATE | SIN0_RANGE | SIN1_RATE | SIN1_RANGE
  | RMP0_RATE | RMP0_RANGE | RMP1_RATE | RMP1_RANGE
  | GEZ | NEG | ZRC | ZRO | RUN
  | RDAL
  | RPTR2 | NA | COMPC | COMPA
  | Float (f : FloatVal)
  | Integer (i : ℤ)
  | Identifier (s : String)
  | Comma | Colon | Equals | Pipe
  | EQU | MEM | SPINASM
  | Hash
deriving Repr, BEq

/-- Descriptor for the `expected` diagnostic text of an `UnexpectedToken`
error (the source stores a human-readable `String`; only which description was
chosen matters to the model). -/
inductive Expected where
  | token (t : Token)
  | instructionDesc
  | skipConditionDesc
  | choModeDesc
  | lfoDesc
  | directiveDesc
  | identifierDesc
deriving Repr

/-- `error.rs`: parse errors.  Spans `Range<usize>` are `(start, stop)` pairs;
the `found` Debug string is carried as the token itself. -/
inductive ParseError where
  | UnexpectedEof
  | UnexpectedToken (expected : Expected) (found : Token) (span : ℕ × ℕ)
  | ExpectedRegister (span : ℕ × ℕ)
  | ExpectedNumber (span : ℕ × ℕ)
  | TooManyInstructions (max count : ℕ) (span : ℕ × ℕ)
  | UndefinedLabel (name : String) (span : ℕ × ℕ)
  | InvalidToken (span : ℕ × ℕ)
deriving Repr

/-- Cast `f64 as f32` as applied by the parser to operand numbers.  The value
is carried exactly (lexer-produced `f32` literals survive the `f32 → f64 → f32`
trip unchanged; no theorem below depends on re-rounded values). -/
def f64ToF32 (v : FloatVal) : FloatVal := v

/-- Truncation toward zero of a rational. -/
def ratTrunc (q : ℚ) : ℤ := if 0 ≤ q then ⌊q⌋ else ⌈q⌉

/-- Saturating cast `f64 as u16` (NaN to 0). -/
def f64ToU16 (v : FloatVal) : ℕ :=
  match v with
  | .finite q => if q ≤ 0 then 0 else min (ratTrunc q).toNat 65535
  | .inf => 65535
  | _ => 0

/-- Saturating cast `f64 as u32` (NaN to 0). -/
def f64ToU32 (v : FloatVal) : ℕ :=
  match v with
  | .finite q => if q ≤ 0 then 0 else min (ratTrunc q).toNat 4294967295
  | .inf => 4294967295
  | _ => 0

/-- Saturating cast `f64 as i8` (NaN to 0). -/
def f64ToI8 (v : FloatVal) : ℤ :=
  match v with
  | .finite q => max (-128) (min 127 (ratTrunc q))
  | .inf => 127
  | .negInf => -128
  | .nan => 0

/-- Decidable equality for `Except`, used to evaluate results on concrete
inputs. -/
instance {ε α : Type} [DecidableEq ε] [DecidableEq α] : DecidableEq (Except ε α) :=
  fun x y =>
    match x, y with
    | .ok a, .ok b =>
        if h : a = b then .isTrue (by rw [h]) else .isFalse (by simp [h])
    | .error e, .error f =>
        if h : e = f then .isTrue (by rw [h]) else .isFalse (by simp [h])
    | .ok _, .error _ => .isFalse (by simp)
    | .error _, .ok _ => .isFalse (by simp)

/-- `parser.rs`: parser state — the eagerly collected token list (token or
lexer-error, with span) and a cursor. -/
structure Parser where
  tokens : List (Except Unit Token × (ℕ × ℕ))
  pos : ℕ
deriving Repr

namespace Parser

/-- `Parser::is_at_end`. -/
def is_at_end (p : Parser) : Bool :=
  p.pos ≥ p.tokens.length

/-- `Parser::advance_checked`: error at end of input or on a lexer error
token, else return the token with its span and advance the cursor. -/
def advance_checked (p : Parser) : Except ParseError ((Token × (ℕ × ℕ)) × Parser) :=
  match p.tokens[p.pos]? with
  | none => .error .UnexpectedEof
  | some (.error _, span) => .error (.InvalidToken span)
  | some (.ok token, span) => .ok ((token, span), { p with pos := p.pos + 1 })

/-- Rust `std::mem::discriminant` equality on tokens: same constructor,
payload ignored. -/
def discriminantEq : Token → Token → Bool
  | .REG _, .REG _ => true
  | .POT _, .POT _ => true
  | .Float _, .Float _ => true
  | .Integer _, .Integer _ => true
  | .Identifier _, .Identifier _ => true
  | a, b => a == b

/-- `Parser::expect`: advance and require the same token discriminant. -/
def expect (p : Parser) (expected : Token) : Except ParseError Parser := do
  let ((token, span), p) ← p.advance_checked
  if discriminantEq token expected then
    .ok p
  else
    .error (.UnexpectedToken (.token expected) token span)

/-- `Parser::parse_register`. -/
def parse_register (p : Parser) : Except ParseError (Register × Parser) := do
  let ((token, span), p) ← p.advance_checked
  match token with
  | .ACC => .ok (.ACC, p)
  | .ADCL => .ok (.ADCL, p)
  | .ADCR => .ok (.ADCR, p)
  | .DACL => .ok (.DACL, p)
  | .DACR => .ok (.DACR, p)
  | .ADDR_PTR => .ok (.ADDR_PTR, p)
  | .LR => .ok (.LR, p)
  | .REG n => .ok (.REG n, p)
  | .SIN0_RATE => .ok (.SIN0_RATE, p)
  | .SIN0_RANGE => .ok (.SIN0_RANGE, p)
  | .SIN1_RATE => .ok (.SIN1_RATE, p)
  | .SIN1_RANGE => .ok (.SIN1_RANGE, p)
  | .RMP0_RATE => .ok (.RMP0_RATE, p)
  | .RMP0_RANGE => .ok (.RMP0_RANGE, p)
  | .RMP1_RATE => .ok (.RMP1_RATE, p)
  | .RMP1_RANGE => .ok (.RMP1_RANGE, p)
  | _ => .error (.ExpectedRegister span)

/-- `Parser::parse_number`: a float or integer literal as an `f64`. -/
def parse_number (p : Parser) : Except ParseError (FloatVal × Parser) := do
  let ((token, span), p) ← p.advance_checked
  match token with
  | .Float f => .ok (f, p)
  | .Integer i => .ok (.finite (i : ℚ), p)
  | _ => .error (.ExpectedNumber span)

/-- `Parser::parse_lfo`. -/
def parse_lfo (p : Parser) : Except ParseError (Lfo × Parser) := do
  let ((token, span), p) ← p.advance_checked
  match token with
  | .SIN0 => .ok (.SIN0, p)
  | .SIN1 => .ok (.SIN1, p)
  | .RMP0 => .ok (.RMP0, p)
  | .RMP1 => .ok (.RMP1, p)
  | _ => .error (.UnexpectedToken .lfoDesc token span)

/-- `Parser::parse_skip_condition`. -/
def parse_skip_condition (p : Parser) : Except ParseError (SkipCondition × Parser) := do
  let ((token, span), p) ← p.advance_checked
  match token with
  | .GEZ => .ok (.GEZ, p)
  | .NEG => .ok (.NEG, p)
  | .ZRC => .ok (.ZRC, p)
  | .ZRO => .ok (.ZRO, p)
  | .RUN => .ok (.RUN, p)
  | _ => .error (.UnexpectedToken .skipConditionDesc token span)

/-- `Parser::parse_cho_mode`. -/
def parse_cho_mode (p : Parser) : Except ParseError (ChoMode × Parser) := do
  let ((token, span), p) ← p.advance_checked
  match token with
  | .RDA => .ok (.RDA, p)
  | .SOF => .ok (.SOF, p)
  | .RDAL => .ok (.RDAL, p)
  | _ => .error (.UnexpectedToken .choModeDesc token span)

/-- `Parser::parse_cho_flags`: simplified flag parsing — consume a single
token (whatever it is) and return default (all-false) flags. -/
def parse_cho_flags (p : Parser) : Except ParseError (ChoFlags × Parser) := do
  let (_, p) ← p.advance_checked
  .ok (⟨false, false, false, false, false⟩, p)

/-- `Parser::parse_instruction`: dispatch on the leading token and parse the
opcode's fixed operand grammar. -/
def parse_instruction (p : Parser) : Except ParseError (Instruction × Parser) := do
  let ((token, span), p) ← p.advance_checked
  match token with
  | .RDAX => do
      let (reg, p) ← p.parse_register
      let p ← p.expect .Comma
      let (coeff, p) ← p.parse_number
      .ok (.RDAX reg (f64ToF32 coeff), p)
  | .RDA => do
      let (addr, p) ← p.parse_number
      let p ← p.expect .Comma
      let (coeff, p) ← p.parse_number
      .ok (.RDA (f64ToU16 addr) (f64ToF32 coeff), p)
  | .WRAX => do
      let (reg, p) ← p.parse_register
      let p ← p.expect .Comma
      let (coeff, p) ← p.parse_number
      .ok (.WRAX reg (f64ToF32 coeff), p)
  | .WRA => do
      let (addr, p) ← p.parse_number
      let p ← p.expect .Comma
      let (coeff, p) ← p.parse_number
      .ok (.WRA (f64ToU16 addr) (f64ToF32 coeff), p)
  | .WRAP => do
      let (addr, p) ← p.parse_number
      let p ← p.expect .Comma
      let (coeff, p) ← p.parse_number
      .ok (.WRAP (f64ToU16 addr) (f64ToF32 coeff), p)
  | .RMPA => do
      let (coeff, p) ← p.parse_number
      .ok (.RMPA (f64ToF32 coeff), p)
  | .MULX => do
      let (reg, p) ← p.parse_register
      .ok (.MULX reg, p)
  | .RDFX => do
      let (reg, p) ← p.parse_register
      let p ← p.expect .Comma
      let (coeff, p) ← p.parse_number
      .ok (.RDFX reg (f64ToF32 coeff), p)
  | .RDFX2 => do
      let (reg, p) ← p.parse_register
      let p ← p.expect .Comma
      let (coeff, p) ← p.parse_number
      .ok (.RDFX2 reg (f64ToF32 coeff), p)
  | .LDAX => do
      let (reg, p) ← p.parse_register
      .ok (.LDAX reg, p)
  | .SOF => do
      let (coeff, p) ← p.parse_number
      let p ← p.expect .Comma
      let (offset, p) ← p.parse_number
      .ok (.SOF (f64ToF32 coeff) (f64ToF32 offset), p)
  | .AND => do
      let (mask, p) ← p.parse_number
      .ok (.AND (f64ToU32 mask), p)
  | .OR => do
      let (mask, p) ← p.parse_number
      .ok (.OR (f64ToU32 mask), p)
  | .XOR => do
      let (mask, p) ← p.parse_number
      .ok (.XOR (f64ToU32 mask), p)
  | .EXP => do
      let (coeff, p) ← p.parse_number
      let p ← p.expect .Comma
      let (offset, p) ← p.parse_number
      .ok (.EXP (f64ToF32 coeff) (f64ToF32 offset), p)
  | .LOG => do
      let (coeff, p) ← p.parse_number
      let p ← p.expect .Comma
      let (offset, p) ← p.parse_number
      .ok (.LOG (f64ToF32 coeff) (f64ToF32 offset), p)
  | .SKP => do
      let (condition, p) ← p.parse_skip_condition
      let p ← p.expect .Comma
      let (offset, p) ← p.parse_number
      .ok (.SKP condition (f64ToI8 offset), p)
  | .WLDS => do
      let (lfo, p) ← p.parse_lfo
      let p ← p.expect .Comma
      let (freq, p) ← p.parse_number
      let p ← p.expect .Comma
      let (amplitude, p) ← p.parse_number
      .ok (.WLDS lfo (f64ToU16 freq) (f64ToU16 amplitude), p)
  | .JAM => do
      let (lfo, p) ← p.parse_lfo
      .ok (.JAM lfo, p)
  | .CHO => do
      let (mode, p) ← p.parse_cho_mode
      let p ← p.expect .Comma
      let (lfo, p) ← p.parse_lfo
      let p ← p.expect .Comma
      let (flags, p) ← p.parse_cho_flags
      let p ← p.expect .Comma
      let (addr, p) ← p.parse_number
      .ok (.CHO mode lfo flags (f64ToU16 addr), p)
  | .ABSA => .ok (.ABSA, p)
  | .SHL => .ok (.SHL, p)
  | .SHR => .ok (.SHR, p)
  | .CLR => .ok (.CLR, p)
  | .NOP => .ok (.NOP, p)
  | _ => .error (.UnexpectedToken .instructionDesc token span)

end Parser

/-! Verification-side definitions: the exactly-representable operand domain on
which encoding followed by decoding is the identity. -/

/-- Registers that survive the encode/decode round trip: the six registers
with dedicated codes and the general-purpose registers `REG0`-`REG31`.
(`ACC`, the eight LFO rate/range registers, and `REG(n ≥ 32)` all encode to
code 0 and decode back as `ADCL`.) -/
def goodReg : Register → Bool
  | .ADCL | .ADCR | .DACL | .DACR | .ADDR_PTR | .LR => true
  | .REG n => decide (n < 32)
  | _ => false

/-- Finite values on the S1.14 quantization grid that fit a 15-bit
two's-complement field: `q = s / 2^14` with `-2^14 ≤ s ≤ 2^14 - 1`. -/
def gridS114 : FloatVal → Bool
  | .finite q => decide (-1 ≤ q) && decide (q < 1) && ((q * 16384).den == 1)
  | _ => false

/-- Finite values on the S1.14 quantization grid that fit the 11-bit
coefficient field of RDA/WRA/WRAP, which the decoder never sign-extends:
`q = s / 2^14` with `0 ≤ s ≤ 2^11 - 1`. -/
def gridS114Small : FloatVal → Bool
  | .finite q =>
      decide (0 ≤ q) && decide (q * 16384 ≤ 2047) && ((q * 16384).den == 1)
  | _ => false

/-- Finite values on the S.10 quantization grid that fit an 11-bit
two's-complement field: `q = t / 2^9` with `-2^9 ≤ t ≤ 2^9 - 1`. -/
def gridS10 : FloatVal → Bool
  | .finite q => decide (-1 ≤ q) && decide (q < 1) && ((q * 512).den == 1)
  | _ => false

/-- The maximal all-zero-word tail of a word list, removed: the words the
default disassembler emits are exactly the decodes of this prefix. -/
def dropTrailingZeros (ws : List ℕ) : List ℕ :=
  (ws.reverse.dropWhile (fun w => w == 0)).reverse

/-- Operand domain on which `decode_instruction ∘ encode_instruction` is the
identity: registers restricted to `goodReg`, coefficients and offsets on the
quantization grid of their field (with the width the field actually keeps),
delay addresses below 32768, masks in 24 bits, skip offsets in `[0, 63]`
(negative offsets are truncated to 6 bits and decoded as non-negative), WLDS
frequency/amplitude in 9 bits, and excluding `RDAX ADCL 0.0`, whose encoding
is the NOP word. -/
def roundtripDomain : Instruction → Bool
  | .RDAX reg coeff =>
      goodReg reg && gridS114 coeff && !(reg == .ADCL && coeff == .finite 0)
  | .RDA addr coeff => decide (addr < 32768) && gridS114Small coeff
  | .RMPA coeff => gridS114 coeff
  | .WRAX reg coeff => goodReg reg && gridS114 coeff
  | .WRA addr coeff => decide (addr < 32768) && gridS114Small coeff
  | .WRAP addr coeff => decide (addr < 32768) && gridS114Small coeff
  | .MULX reg => goodReg reg
  | .RDFX reg coeff => goodReg reg && gridS114 coeff
  | .ABSA => true
  | .LDAX reg => goodReg reg
  | .RDFX2 reg coeff => goodReg reg && gridS114 coeff
  | .SOF coeff offset => gridS114 coeff && gridS10 offset
  | .AND mask => decide (mask < 16777216)
  | .OR mask => decide (mask < 16777216)
  | .XOR mask => decide (mask < 16777216)
  | .SHL => true
  | .SHR => true
  | .CLR => true
  | .NOP => true
  | .EXP coeff offset => gridS114 coeff && gridS10 offset
  | .LOG coeff offset => gridS114 coeff && gridS10 offset
  | .SKP _ offset => decide (0 ≤ offset) && decide (offset ≤ 63)
  | .WLDS _ freq amplitude => decide (freq < 512) && decide (amplitude < 512)
  | .JAM _ => true
  | .CHO _ _ _ addr => decide (addr < 32768)

/-! Helper lemmas: two's-complement / bit-field arithmetic. -/

theorem except_bind_ok {ε α β : Type} (a : α) (f : α → Except ε β) :
    (Except.ok a : Except ε α) >>= f = f a := rfl

theorem except_bind_err {ε α β : Type} (e : ε) (f : α → Except ε β) :
    (Except.error e : Except ε α) >>= f = .error e := rfl

theorem lor_eq_add {a b : ℕ} (n : ℕ) (ha : a % 2 ^ n = 0) (hb : b < 2 ^ n) :
    a ||| b = a + b := by
  obtain ⟨k, rfl⟩ := Nat.dvd_of_mod_eq_zero ha
  exact (Nat.mul_add_lt_is_or hb k).symm

theorem and_two_pow_ne_zero_iff (x n : ℕ) : x &&& 2 ^ n ≠ 0 ↔ x / 2 ^ n % 2 = 1 := by
  rw [Nat.and_two_pow]
  have h := Nat.testBit_to_div_mod (x := x) (i := n)
  cases hb : x.testBit n <;> rw [hb] at h <;> simp at h ⊢ <;> omega

theorem andm_03 (x : ℕ) : x &&& 3 = x % 4 := by
  simpa using Nat.and_pow_two_sub_one_eq_mod x 2

theorem andm_07 (x : ℕ) : x &&& 7 = x % 8 := by
  simpa using Nat.and_pow_two_sub_one_eq_mod x 3

theorem andm_1F (x : ℕ) : x &&& 31 = x % 32 := by
  simpa using Nat.and_pow_two_sub_one_eq_mod x 5

theorem andm_3F (x : ℕ) : x &&& 63 = x % 64 := by
  simpa using Nat.and_pow_two_sub_one_eq_mod x 6

theorem andm_1FF (x : ℕ) : x &&& 511 = x % 512 := by
  simpa using Nat.and_pow_two_sub_one_eq_mod x 9

theorem andm_7FF (x : ℕ) : x &&& 2047 = x % 2048 := by
  simpa using Nat.and_pow_two_sub_one_eq_mod x 11

theorem andm_7FFF (x : ℕ) : x &&& 32767 = x % 32768 := by
  simpa using Nat.and_pow_two_sub_one_eq_mod x 15

theorem andm_FFFF (x : ℕ) : x &&& 65535 = x % 65536 := by
  simpa using Nat.and_pow_two_sub_one_eq_mod x 16

theorem andm_7FFFFF (x : ℕ) : x &&& 8388607 = x % 8388608 := by
  simpa using Nat.and_pow_two_sub_one_eq_mod x 23

theorem andm_FFFFFF (x : ℕ) : x &&& 16777215 = x % 16777216 := by
  simpa using Nat.and_pow_two_sub_one_eq_mod x 24

theorem and_4000_ne (x : ℕ) (h : x / 16384 % 2 = 1) : x &&& 16384 ≠ 0 := by
  have h14 := and_two_pow_ne_zero_iff x 14
  norm_num at h14
  exact h14.mpr h

theorem and_4000_eq (x : ℕ) (h : x / 16384 % 2 = 0) : x &&& 16384 = 0 := by
  have h14 := and_two_pow_ne_zero_iff x 14
  norm_num at h14
  by_contra hne
  omega

theorem and_400_ne (x : ℕ) (h : x / 1024 % 2 = 1) : x &&& 1024 ≠ 0 := by
  have h10 := and_two_pow_ne_zero_iff x 10
  norm_num at h10
  exact h10.mpr h

theorem and_400_eq (x : ℕ) (h : x / 1024 % 2 = 0) : x &&& 1024 = 0 := by
  have h10 := and_two_pow_ne_zero_iff x 10
  norm_num at h10
  by_contra hne
  omega

/-! Helper lemmas: rounding and the fixed-point codecs on grid values. -/

theorem roundHalfAway_intCast (s : ℤ) : roundHalfAway (s : ℚ) = s := by
  unfold roundHalfAway
  by_cases h : (0 : ℚ) ≤ (s : ℚ)
  · rw [if_pos h]
    have he : (s : ℚ) + 1 / 2 = 1 / 2 + (s : ℚ) := by ring
    rw [he, Int.floor_add_int]
    norm_num
  · rw [if_neg h]
    have he : (s : ℚ) - 1 / 2 = -(1 / 2) + (s : ℚ) := by ring
    rw [he, Int.ceil_add_int]
    norm_num

theorem encode_s114_grid {q : ℚ} {s : ℤ} (hq : q * 16384 = (s : ℚ))
    (h1 : -32768 ≤ s) (h2 : s < 32768) :
    encode_s114 (.finite q) = .ok (s % 32768).toNat := by
  have hlo : -2 ≤ q := by
    rw [show (-2 : ℚ) = ((-32768 : ℤ) : ℚ) / 16384 by norm_num,
      div_le_iff₀ (by norm_num), hq]
    exact_mod_cast h1
  have hhi : q < 2 := by
    rw [show (2 : ℚ) = ((32768 : ℤ) : ℚ) / 16384 by norm_num,
      lt_div_iff₀ (by norm_num), hq]
    exact_mod_cast h2
  unfold encode_s114
  rw [if_neg (by simp [FloatVal.is_finite, FloatVal.containedIn, hlo, hhi])]
  show Except.ok ((roundHalfAway (q * 16384) % 32768).toNat) = _
  rw [hq, roundHalfAway_intCast]

theorem encode_s10_grid {q : ℚ} {t : ℤ} (hq : q * 512 = (t : ℚ))
    (h1 : -512 ≤ t) (h2 : t < 512) :
    encode_s10 (.finite q) = .ok (t % 2048).toNat := by
  have hlo : -1 ≤ q := by
    rw [show (-1 : ℚ) = ((-512 : ℤ) : ℚ) / 512 by norm_num,
      div_le_iff₀ (by norm_num), hq]
    exact_mod_cast h1
  have hhi : q < 1 := by
    rw [show (1 : ℚ) = ((512 : ℤ) : ℚ) / 512 by norm_num,
      lt_div_iff₀ (by norm_num), hq]
    exact_mod_cast h2
  unfold encode_s10
  rw [if_neg (by simp [FloatVal.is_finite, FloatVal.containedIn, hlo, hhi])]
  show Except.ok ((roundHalfAway (q * 512) % 2048).toNat) = _
  rw [hq, roundHalfAway_intCast]

theorem decode_s114_pos {c : ℕ} (h : c < 16384) :
    decode_s114 c = .ok (.finite ((c : ℚ) / 16384)) := by
  unfold decode_s114
  rw [if_neg (not_ne_iff.mpr (and_4000_eq c (by omega)))]
  unfold u32ToI32
  rw [if_pos (by omega)]
  congr 2

theorem decode_s114_of_emod {s : ℤ} (h1 : -16384 ≤ s) (h2 : s ≤ 16383) :
    decode_s114 (s % 32768).toNat = .ok (.finite ((s : ℚ) / 16384)) := by
  rcases le_or_lt 0 s with hs | hs
  · have hc : (s % 32768).toNat = s.toNat := by omega
    rw [hc, decode_s114_pos (by omega)]
    have hcast : ((s.toNat : ℕ) : ℚ) = (s : ℚ) := by
      have h3 : ((s.toNat : ℤ)) = s := Int.toNat_of_nonneg hs
      exact_mod_cast h3
    rw [hcast]
  · have hc1 : 16384 ≤ (s % 32768).toNat := by omega
    have hc2 : (s % 32768).toNat < 32768 := by omega
    unfold decode_s114
    rw [if_pos (and_4000_ne _ (by omega))]
    have hor : (s % 32768).toNat ||| 0xFFFF8000 = (s % 32768).toNat + 0xFFFF8000 := by
      rw [Nat.lor_comm, lor_eq_add 15 (by norm_num) (by omega)]
      omega
    rw [hor]
    unfold u32ToI32
    rw [if_neg (by omega)]
    have hval : (((s % 32768).toNat + 0xFFFF8000 : ℕ) : ℤ) - 4294967296 = s := by omega
    rw [hval]

theorem decode_s10_pos {c : ℕ} (h : c < 1024) :
    decode_s10 c = .ok (.finite ((c : ℚ) / 512)) := by
  unfold decode_s10
  rw [if_neg (not_ne_iff.mpr (and_400_eq c (by omega)))]
  unfold u32ToI32
  rw [if_pos (by omega)]
  congr 2

theorem decode_s10_of_emod {t : ℤ} (h1 : -512 ≤ t) (h2 : t ≤ 511) :
    decode_s10 (t % 2048).toNat = .ok (.finite ((t : ℚ) / 512)) := by
  rcases le_or_lt 0 t with ht | ht
  · have hc : (t % 2048).toNat = t.toNat := by omega
    rw [hc, decode_s10_pos (by omega)]
    have hcast : ((t.toNat : ℕ) : ℚ) = (t : ℚ) := by
      have h3 : ((t.toNat : ℤ)) = t := Int.toNat_of_nonneg ht
      exact_mod_cast h3
    rw [hcast]
  · have hc1 : 1024 ≤ (t % 2048).toNat := by omega
    have hc2 : (t % 2048).toNat < 2048 := by omega
    unfold decode_s10
    rw [if_pos (and_400_ne _ (by omega))]
    have hor : (t % 2048).toNat ||| 0xFFFFF800 = (t % 2048).toNat + 0xFFFFF800 := by
      rw [Nat.lor_comm, lor_eq_add 11 (by norm_num) (by omega)]
      omega
    rw [hor]
    unfold u32ToI32
    rw [if_neg (by omega)]
    have hval : (((t % 2048).toNat + 0xFFFFF800 : ℕ) : ℤ) - 4294967296 = t := by omega
    rw [hval]

/-! Helper lemmas: field-table inversions and domain elimination. -/

theorem decode_register_reg {n : ℕ} (h : n < 32) :
    decode_register (n + 16) = .ok (.REG n) := by
  unfold decode_register
  rw [if_neg (by omega), if_neg (by omega), if_neg (by omega), if_neg (by omega),
    if_neg (by omega), if_neg (by omega), if_pos (by omega)]
  norm_num

theorem encode_register_good {reg : Register} (h : goodReg reg = true) :
    ∃ r, encode_register reg = .ok r ∧ r < 48 ∧ decode_register r = .ok reg := by
  cases reg with
  | ADCL => exact ⟨0, by decide, by decide, by decide⟩
  | ADCR => exact ⟨1, by decide, by decide, by decide⟩
  | DACL => exact ⟨2, by decide, by decide, by decide⟩
  | DACR => exact ⟨3, by decide, by decide, by decide⟩
  | ADDR_PTR => exact ⟨4, by decide, by decide, by decide⟩
  | LR => exact ⟨5, by decide, by decide, by decide⟩
  | REG n =>
      have hn : n < 32 := by simpa [goodReg] using h
      exact ⟨n + 16, by simp [encode_register, hn], by omega, decode_register_reg hn⟩
  | ACC => simp [goodReg] at h
  | SIN0_RATE => simp [goodReg] at h
  | SIN0_RANGE => simp [goodReg] at h
  | SIN1_RATE => simp [goodReg] at h
  | SIN1_RANGE => simp [goodReg] at h
  | RMP0_RATE => simp [goodReg] at h
  | RMP0_RANGE => simp [goodReg] at h
  | RMP1_RATE => simp [goodReg] at h
  | RMP1_RANGE => simp [goodReg] at h

theorem skip_condition_roundtrip (condition : SkipCondition) :
    encode_skip_condition condition < 8
      ∧ decode_skip_condition (encode_skip_condition condition) = .ok condition := by
  cases condition <;> exact ⟨by decide, by decide⟩

theorem lfo_roundtrip (lfo : Lfo) :
    encode_lfo lfo < 4 ∧ decode_lfo (encode_lfo lfo) = .ok lfo := by
  cases lfo <;> exact ⟨by decide, by decide⟩

theorem cho_mode_roundtrip (mode : ChoMode) :
    encode_cho_mode mode < 4 ∧ decode_cho_mode (encode_cho_mode mode) = .ok mode := by
  cases mode <;> exact ⟨by decide, by decide⟩

theorem cho_flags_roundtrip (flags : ChoFlags) :
    encode_cho_flags flags < 64
      ∧ decode_cho_flags (encode_cho_flags flags) = flags := by
  obtain ⟨a, b, c, d, e⟩ := flags
  cases a <;> cases b <;> cases c <;> cases d <;> cases e <;> exact ⟨by decide, by decide⟩

theorem gridS114_elim {v : FloatVal} (h : gridS114 v = true) :
    ∃ (q : ℚ) (s : ℤ), v = .finite q ∧ q * 16384 = (s : ℚ)
      ∧ -16384 ≤ s ∧ s ≤ 16383 ∧ q = (s : ℚ) / 16384 := by
  match v with
  | .finite q =>
    simp only [gridS114, Bool.and_eq_true, decide_eq_true_eq, beq_iff_eq] at h
    obtain ⟨⟨h1, h2⟩, hden⟩ := h
    have hq : q * 16384 = (((q * 16384).num : ℤ) : ℚ) :=
      ((Rat.den_eq_one_iff _).mp hden).symm
    refine ⟨q, (q * 16384).num, rfl, hq, ?_, ?_, ?_⟩
    · have hlo : ((-16384 : ℤ) : ℚ) ≤ (((q * 16384).num : ℤ) : ℚ) := by
        rw [← hq]
        push_cast
        linarith
      exact_mod_cast hlo
    · have hhi : (((q * 16384).num : ℤ) : ℚ) < ((16384 : ℤ) : ℚ) := by
        rw [← hq]
        push_cast
        linarith
      have : (q * 16384).num < 16384 := by exact_mod_cast hhi
      omega
    · rw [eq_div_iff (by norm_num : (16384 : ℚ) ≠ 0)]
      exact hq

theorem gridS114Small_elim {v : FloatVal} (h : gridS114Small v = true) :
    ∃ (q : ℚ) (s : ℤ), v = .finite q ∧ q * 16384 = (s : ℚ)
      ∧ 0 ≤ s ∧ s ≤ 2047 ∧ q = (s : ℚ) / 16384 := by
  match v with
  | .finite q =>
    simp only [gridS114Small, Bool.and_eq_true, decide_eq_true_eq, beq_iff_eq] at h
    obtain ⟨⟨h1, h2⟩, hden⟩ := h
    have hq : q * 16384 = (((q * 16384).num : ℤ) : ℚ) :=
      ((Rat.den_eq_one_iff _).mp hden).symm
    refine ⟨q, (q * 16384).num, rfl, hq, ?_, ?_, ?_⟩
    · have hlo : ((0 : ℤ) : ℚ) ≤ (((q * 16384).num : ℤ) : ℚ) := by
        rw [← hq]
        push_cast
        linarith
      exact_mod_cast hlo
    · have hhi : (((q * 16384).num : ℤ) : ℚ) ≤ ((2047 : ℤ) : ℚ) := by
        rw [← hq]
        push_cast
        linarith
      exact_mod_cast hhi
    · rw [eq_div_iff (by norm_num : (16384 : ℚ) ≠ 0)]
      exact hq

theorem gridS10_elim {v : FloatVal} (h : gridS10 v = true) :
    ∃ (q : ℚ) (t : ℤ), v = .finite q ∧ q * 512 = (t : ℚ)
      ∧ -512 ≤ t ∧ t ≤ 511 ∧ q = (t : ℚ) / 512 := by
  match v with
  | .finite q =>
    simp only [gridS10, Bool.and_eq_true, decide_eq_true_eq, beq_iff_eq] at h
    obtain ⟨⟨h1, h2⟩, hden⟩ := h
    have hq : q * 512 = (((q * 512).num : ℤ) : ℚ) :=
      ((Rat.den_eq_one_iff _).mp hden).symm
    refine ⟨q, (q * 512).num, rfl, hq, ?_, ?_, ?_⟩
    · have hlo : ((-512 : ℤ) : ℚ) ≤ (((q * 512).num : ℤ) : ℚ) := by
        rw [← hq]
        push_cast
        linarith
      exact_mod_cast hlo
    · have hhi : (((q * 512).num : ℤ) : ℚ) < ((512 : ℤ) : ℚ) := by
        rw [← hq]
        push_cast
        linarith
      have : (q * 512).num < 512 := by exact_mod_cast hhi
      omega
    · rw [eq_div_iff (by norm_num : (512 : ℚ) ≠ 0)]
      exact hq

theorem u32ToI8_small (n : ℕ) (h : n < 128) : u32ToI8 n = n := by
  simp only [u32ToI8]
  rw [if_pos (by omega)]
  omega

/-! Helper lemmas: word packing (bit-or of disjoint shifted fields as
arithmetic) and field extraction, one per instruction word shape. -/

theorem pack_S1 (op r c : ℕ) (hr : r < 64) (hc : c < 32768) :
    (op <<< 27) ||| (r <<< 21) ||| ((c &&& 0x7FFF) <<< 6)
      = op * 2 ^ 27 + r * 2 ^ 21 + c * 2 ^ 6 := by
  have hm : c &&& 32767 = c := by rw [andm_7FFF]; omega
  rw [show (0x7FFF : ℕ) = 32767 from rfl, hm, Nat.shiftLeft_eq, Nat.shiftLeft_eq,
    Nat.shiftLeft_eq]
  rw [lor_eq_add 27 (Nat.mul_mod_left op (2 ^ 27)) (by omega),
    lor_eq_add 21 (by omega) (by omega)]

theorem decode_S1_word (op r c : ℕ) (hop : op < 32) (hr : r < 64) (hc : c < 32768) :
    ((op * 2 ^ 27 + r * 2 ^ 21 + c * 2 ^ 6) >>> 27) &&& 0x1F = op
    ∧ ((op * 2 ^ 27 + r * 2 ^ 21 + c * 2 ^ 6) >>> 21) &&& 0x3F = r
    ∧ ((op * 2 ^ 27 + r * 2 ^ 21 + c * 2 ^ 6) >>> 6) &&& 0x7FFF = c := by
  refine ⟨?_, ?_, ?_⟩
  · rw [Nat.shiftRight_eq_div_pow, andm_1F]; omega
  · rw [Nat.shiftRight_eq_div_pow, andm_3F]; omega
  · rw [Nat.shiftRight_eq_div_pow, andm_7FFF]; omega

theorem pack_S2 (op a c : ℕ) (ha : a < 65536) (hc : c < 2048) :
    (op <<< 27) ||| (a <<< 11) ||| (c &&& 0x7FF)
      = op * 2 ^ 27 + a * 2 ^ 11 + c := by
  have hm : c &&& 2047 = c := by rw [andm_7FF]; omega
  rw [show (0x7FF : ℕ) = 2047 from rfl, hm, Nat.shiftLeft_eq, Nat.shiftLeft_eq]
  rw [lor_eq_add 27 (Nat.mul_mod_left op (2 ^ 27)) (by omega),
    lor_eq_add 11 (by omega) (by omega)]

theorem decode_S2_word (op a c : ℕ) (hop : op < 32) (ha : a < 65536) (hc : c < 2048) :
    ((op * 2 ^ 27 + a * 2 ^ 11 + c) >>> 27) &&& 0x1F = op
    ∧ ((op * 2 ^ 27 + a * 2 ^ 11 + c) >>> 11) &&& 0xFFFF = a
    ∧ (op * 2 ^ 27 + a * 2 ^ 11 + c) &&& 0x7FF = c := by
  refine ⟨?_, ?_, ?_⟩
  · rw [Nat.shiftRight_eq_div_pow, andm_1F]; omega
  · rw [Nat.shiftRight_eq_div_pow, andm_FFFF]; omega
  · rw [andm_7FF]; omega

theorem pack_S3 (op c : ℕ) (hc : c < 32768) :
    (op <<< 27) ||| (c &&& 0x7FFFFF) = op * 2 ^ 27 + c := by
  have hm : c &&& 8388607 = c := by rw [andm_7FFFFF]; omega
  rw [show (0x7FFFFF : ℕ) = 8388607 from rfl, hm, Nat.shiftLeft_eq]
  rw [lor_eq_add 27 (Nat.mul_mod_left op (2 ^ 27)) (by omega)]

theorem decode_S3_word (op c : ℕ) (hop : op < 32) (hc : c < 32768) :
    ((op * 2 ^ 27 + c) >>> 27) &&& 0x1F = op
    ∧ (op * 2 ^ 27 + c) &&& 0x7FFFFF = c := by
  refine ⟨?_, ?_⟩
  · rw [Nat.shiftRight_eq_div_pow, andm_1F]; omega
  · rw [andm_7FFFFF]; omega

theorem pack_S4 (op r : ℕ) (hr : r < 64) :
    (op <<< 27) ||| (r <<< 21) = op * 2 ^ 27 + r * 2 ^ 21 := by
  rw [Nat.shiftLeft_eq, Nat.shiftLeft_eq]
  rw [lor_eq_add 27 (Nat.mul_mod_left op (2 ^ 27)) (by omega)]

theorem decode_S4_word (op r : ℕ) (hop : op < 32) (hr : r < 64) :
    ((op * 2 ^ 27 + r * 2 ^ 21) >>> 27) &&& 0x1F = op
    ∧ ((op * 2 ^ 27 + r * 2 ^ 21) >>> 21) &&& 0x3F = r := by
  refine ⟨?_, ?_⟩
  · rw [Nat.shiftRight_eq_div_pow, andm_1F]; omega
  · rw [Nat.shiftRight_eq_div_pow, andm_3F]; omega

theorem pack_S6 (op c t : ℕ) (hc : c < 32768) (ht : t < 2048) :
    (op <<< 27) ||| ((c &&& 0xFFFF) <<< 11) ||| (t &&& 0x7FF)
      = op * 2 ^ 27 + c * 2 ^ 11 + t := by
  have hmc : c &&& 65535 = c := by rw [andm_FFFF]; omega
  have hmt : t &&& 2047 = t := by rw [andm_7FF]; omega
  rw [show (0xFFFF : ℕ) = 65535 from rfl, show (0x7FF : ℕ) = 2047 from rfl, hmc, hmt,
    Nat.shiftLeft_eq, Nat.shiftLeft_eq]
  rw [lor_eq_add 27 (Nat.mul_mod_left op (2 ^ 27)) (by omega),
    lor_eq_add 11 (by omega) (by omega)]

theorem decode_S6_word (op c t : ℕ) (hop : op < 32) (hc : c < 32768) (ht : t < 2048) :
    ((op * 2 ^ 27 + c * 2 ^ 11 + t) >>> 27) &&& 0x1F = op
    ∧ ((op * 2 ^ 27 + c * 2 ^ 11 + t) >>> 11) &&& 0xFFFF = c
    ∧ (op * 2 ^ 27 + c * 2 ^ 11 + t) &&& 0x7FF = t := by
  refine ⟨?_, ?_, ?_⟩
  · rw [Nat.shiftRight_eq_div_pow, andm_1F]; omega
  · rw [Nat.shiftRight_eq_div_pow, andm_FFFF]; omega
  · rw [andm_7FF]; omega

theorem pack_S7 (op m : ℕ) (hm : m < 16777216) :
    (op <<< 27) ||| (m &&& 0xFFFFFF) = op * 2 ^ 27 + m := by
  have hmm : m &&& 16777215 = m := by rw [andm_FFFFFF]; omega
  rw [show (0xFFFFFF : ℕ) = 16777215 from rfl, hmm, Nat.shiftLeft_eq]
  rw [lor_eq_add 27 (Nat.mul_mod_left op (2 ^ 27)) (by omega)]

theorem decode_S7_word (op m : ℕ) (hop : op < 32) (hm : m < 16777216) :
    ((op * 2 ^ 27 + m) >>> 27) &&& 0x1F = op
    ∧ (op * 2 ^ 27 + m) &&& 0xFFFFFF = m := by
  refine ⟨?_, ?_⟩
  · rw [Nat.shiftRight_eq_div_pow, andm_1F]; omega
  · rw [andm_FFFFFF]; omega

theorem pack_S8 (op k f : ℕ) (hk : k < 8) (hf : f < 64) :
    (op <<< 27) ||| (k <<< 24) ||| (f <<< 18)
      = op * 2 ^ 27 + k * 2 ^ 24 + f * 2 ^ 18 := by
  rw [Nat.shiftLeft_eq, Nat.shiftLeft_eq, Nat.shiftLeft_eq]
  rw [lor_eq_add 27 (Nat.mul_mod_left op (2 ^ 27)) (by omega),
    lor_eq_add 24 (by omega) (by omega)]

theorem decode_S8_word (op k f : ℕ) (hop : op < 32) (hk : k < 8) (hf : f < 64) :
    ((op * 2 ^ 27 + k * 2 ^ 24 + f * 2 ^ 18) >>> 27) &&& 0x1F = op
    ∧ ((op * 2 ^ 27 + k * 2 ^ 24 + f * 2 ^ 18) >>> 24) &&& 0x07 = k
    ∧ ((op * 2 ^ 27 + k * 2 ^ 24 + f * 2 ^ 18) >>> 18) &&& 0x3F = f := by
  refine ⟨?_, ?_, ?_⟩
  · rw [Nat.shiftRight_eq_div_pow, andm_1F]; omega
  · rw [Nat.shiftRight_eq_div_pow, andm_07]; omega
  · rw [Nat.shiftRight_eq_div_pow, andm_3F]; omega

theorem pack_S9 (op l f a : ℕ) (hl : l < 4) (hf : f < 512) (ha : a < 512) :
    (op <<< 27) ||| (l <<< 25) ||| ((f &&& 0x1FF) <<< 9) ||| (a &&& 0x1FF)
      = op * 2 ^ 27 + l * 2 ^ 25 + f * 2 ^ 9 + a := by
  have hmf : f &&& 511 = f := by rw [andm_1FF]; omega
  have hma : a &&& 511 = a := by rw [andm_1FF]; omega
  rw [show (0x1FF : ℕ) = 511 from rfl, hmf, hma, Nat.shiftLeft_eq, Nat.shiftLeft_eq,
    Nat.shiftLeft_eq]
  have e1 : (op * 2 ^ 27 : ℕ) ||| l * 2 ^ 25 = op * 2 ^ 27 + l * 2 ^ 25 :=
    lor_eq_add 27 (Nat.mul_mod_left op (2 ^ 27)) (by omega)
  rw [e1]
  have e2 : (op * 2 ^ 27 + l * 2 ^ 25 : ℕ) ||| f * 2 ^ 9
      = op * 2 ^ 27 + l * 2 ^ 25 + f * 2 ^ 9 :=
    lor_eq_add 25 (by omega) (by omega)
  rw [e2]
  have e3 : (op * 2 ^ 27 + l * 2 ^ 25 + f * 2 ^ 9 : ℕ) ||| a
      = op * 2 ^ 27 + l * 2 ^ 25 + f * 2 ^ 9 + a :=
    lor_eq_add 9 (by omega) (by omega)
  rw [e3]

theorem decode_S9_word (op l f a : ℕ) (hop : op < 32) (hl : l < 4) (hf : f < 512)
    (ha : a < 512) :
    ((op * 2 ^ 27 + l * 2 ^ 25 + f * 2 ^ 9 + a) >>> 27) &&& 0x1F = op
    ∧ ((op * 2 ^ 27 + l * 2 ^ 25 + f * 2 ^ 9 + a) >>> 25) &&& 0x03 = l
    ∧ ((op * 2 ^ 27 + l * 2 ^ 25 + f * 2 ^ 9 + a) >>> 9) &&& 0x1FF = f
    ∧ (op * 2 ^ 27 + l * 2 ^ 25 + f * 2 ^ 9 + a) &&& 0x1FF = a := by
  refine ⟨?_, ?_, ?_, ?_⟩
  · rw [Nat.shiftRight_eq_div_pow, andm_1F]; omega
  · rw [Nat.shiftRight_eq_div_pow, andm_03]; omega
  · rw [Nat.shiftRight_eq_div_pow, andm_1FF]; omega
  · rw [andm_1FF]; omega

theorem pack_S10 (op l : ℕ) (hl : l < 4) :
    (op <<< 27) ||| (l <<< 25) = op * 2 ^ 27 + l * 2 ^ 25 := by
  rw [Nat.shiftLeft_eq, Nat.shiftLeft_eq]
  rw [lor_eq_add 27 (Nat.mul_mod_left op (2 ^ 27)) (by omega)]

theorem decode_S10_word (op l : ℕ) (hop : op < 32) (hl : l < 4) :
    ((op * 2 ^ 27 + l * 2 ^ 25) >>> 27) &&& 0x1F = op
    ∧ ((op * 2 ^ 27 + l * 2 ^ 25) >>> 25) &&& 0x03 = l := by
  refine ⟨?_, ?_⟩
  · rw [Nat.shiftRight_eq_div_pow, andm_1F]; omega
  · rw [Nat.shiftRight_eq_div_pow, andm_03]; omega

theorem pack_S11 (op m l f a : ℕ) (hm : m < 4) (hl : l < 4) (hf : f < 64)
    (ha : a < 32768) :
    (op <<< 27) ||| (m <<< 24) ||| (l <<< 22) ||| (f <<< 16) ||| (a &&& 0xFFFF)
      = op * 2 ^ 27 + m * 2 ^ 24 + l * 2 ^ 22 + f * 2 ^ 16 + a := by
  have hma : a &&& 65535 = a := by rw [andm_FFFF]; omega
  rw [show (0xFFFF : ℕ) = 65535 from rfl, hma, Nat.shiftLeft_eq, Nat.shiftLeft_eq,
    Nat.shiftLeft_eq, Nat.shiftLeft_eq]
  have e1 : (op * 2 ^ 27 : ℕ) ||| m * 2 ^ 24 = op * 2 ^ 27 + m * 2 ^ 24 :=
    lor_eq_add 27 (Nat.mul_mod_left op (2 ^ 27)) (by omega)
  rw [e1]
  have e2 : (op * 2 ^ 27 + m * 2 ^ 24 : ℕ) ||| l * 2 ^ 22
      = op * 2 ^ 27 + m * 2 ^ 24 + l * 2 ^ 22 :=
    lor_eq_add 24 (by omega) (by omega)
  rw [e2]
  have e3 : (op * 2 ^ 27 + m * 2 ^ 24 + l * 2 ^ 22 : ℕ) ||| f * 2 ^ 16
      = op * 2 ^ 27 + m * 2 ^ 24 + l * 2 ^ 22 + f * 2 ^ 16 :=
    lor_eq_add 22 (by omega) (by omega)
  rw [e3]
  have e4 : (op * 2 ^ 27 + m * 2 ^ 24 + l * 2 ^ 22 + f * 2 ^ 16 : ℕ) ||| a
      = op * 2 ^ 27 + m * 2 ^ 24 + l * 2 ^ 22 + f * 2 ^ 16 + a :=
    lor_eq_add 16 (by omega) (by omega)
  rw [e4]

theorem decode_S11_word (op m l f a : ℕ) (hop : op < 32) (hm : m < 4) (hl : l < 4)
    (hf : f < 64) (ha : a < 32768) :
    ((op * 2 ^ 27 + m * 2 ^ 24 + l * 2 ^ 22 + f * 2 ^ 16 + a) >>> 27) &&& 0x1F = op
    ∧ ((op * 2 ^ 27 + m * 2 ^ 24 + l * 2 ^ 22 + f * 2 ^ 16 + a) >>> 24) &&& 0x03 = m
    ∧ ((op * 2 ^ 27 + m * 2 ^ 24 + l * 2 ^ 22 + f * 2 ^ 16 + a) >>> 22) &&& 0x03 = l
    ∧ ((op * 2 ^ 27 + m * 2 ^ 24 + l * 2 ^ 22 + f * 2 ^ 16 + a) >>> 16) &&& 0x3F = f
    ∧ (op * 2 ^ 27 + m * 2 ^ 24 + l * 2 ^ 22 + f * 2 ^ 16 + a) &&& 0xFFFF = a := by
  refine ⟨?_, ?_, ?_, ?_, ?_⟩
  · rw [Nat.shiftRight_eq_div_pow, andm_1F]; omega
  · rw [Nat.shiftRight_eq_div_pow, andm_03]; omega
  · rw [Nat.shiftRight_eq_div_pow, andm_03]; omega
  · rw [Nat.shiftRight_eq_div_pow, andm_3F]; omega
  · rw [andm_FFFF]; omega

theorem encode_address_ok {a : ℕ} (h : a < 32768) : encode_address a = .ok a := by
  unfold encode_address DELAY_RAM_SIZE
  rw [if_neg (by omega)]

/-- C1 (counterexample).  `RDAX ADCL (1/32768)` lies inside the documented
operand domain (an S1.14 coefficient in `[-2.0, 2.0)`, a defined register),
yet the round trip does not return it: the value `2^-15` (an exact `f32`)
is quantized by the encoder to `1/16384`, so `decode (encode inst)` yields a
different instruction. -/
theorem c1_counterexample :
    FloatVal.containedIn (.finite (1 / 32768)) (-2) 2 = true
    ∧ encode_instruction (.RDAX .ADCL (.finite (1 / 32768))) = .ok 64
    ∧ decode_instruction 64 = .ok (.RDAX .ADCL (.finite (1 / 16384)))
    ∧ Instruction.RDAX .ADCL (.finite (1 / 16384))
        ≠ .RDAX .ADCL (.finite (1 / 32768)) := by
  refine ⟨?_, ?_, ?_, ?_⟩
  · simp only [FloatVal.containedIn]
    norm_num
  · have h1 : encode_s114 (.finite (1 / 32768)) = .ok 1 := by
      have hr : roundHalfAway (1 / 2 : ℚ) = 1 := by
        unfold roundHalfAway
        rw [if_pos (by norm_num)]
        norm_num
      simp only [encode_s114, FloatVal.is_finite, FloatVal.containedIn]
      rw [if_neg (by norm_num)]
      rw [show ((1 : ℚ) / 32768 * 16384) = 1 / 2 by norm_num, hr]
      decide
    simp only [encode_instruction]
    rw [show encode_register .ADCL = .ok 0 from rfl, except_bind_ok, h1, except_bind_ok]
    decide
  · have e0 : (64 : ℕ) ≠ 0 := by decide
    have e1 : (64 : ℕ) >>> 27 &&& 31 = 0 := by decide
    have e2 : (64 : ℕ) >>> 21 &&& 63 = 0 := by decide
    have e3 : (64 : ℕ) >>> 6 &&& 32767 = 1 := by decide
    simp only [decode_instruction, e1, e2, e3, if_neg e0]
    norm_num [decode_register, except_bind_ok,
      decode_s114_pos (show (1 : ℕ) < 16384 by norm_num)]
  · norm_num

/-- C1 (amended).  On the exactly-representable operand domain
`roundtripDomain` — grid coefficients fitting the width each field really
keeps, `goodReg` registers, addresses below 32768, 24-bit masks,
non-negative 6-bit skip offsets, 9-bit WLDS operands, excluding
`RDAX ADCL 0.0` — decoding an encoded instruction returns exactly the
original instruction. -/
theorem c1_roundtrip_amended (inst : Instruction)
    (hdom : roundtripDomain inst = true) :
    ∃ w, encode_instruction inst = .ok w
      ∧ decode_instruction w = .ok inst := by
  cases inst with
  | RDAX reg coeff =>
    simp only [roundtripDomain, Bool.and_eq_true, Bool.not_eq_true'] at hdom
    obtain ⟨⟨hreg, hcoef⟩, hne⟩ := hdom
    obtain ⟨r, her, hr48, hdr⟩ := encode_register_good hreg
    obtain ⟨q, s, rfl, hq, hs1, hs2, hqs⟩ := gridS114_elim hcoef
    subst hqs
    have henc := encode_s114_grid hq (by omega) (by omega)
    have hclt : (s % 32768).toNat < 32768 := by omega
    have hE : encode_instruction (.RDAX reg (.finite ((s : ℚ) / 16384)))
        = .ok ((0b00000 <<< 27) ||| (r <<< 21)
            ||| (((s % 32768).toNat &&& 0x7FFF) <<< 6)) := by
      simp only [encode_instruction]
      rw [her, except_bind_ok, henc, except_bind_ok]
    rw [pack_S1 0b00000 r ((s % 32768).toNat) (by omega) hclt] at hE
    obtain ⟨hop', hr', hc'⟩ :=
      decode_S1_word 0b00000 r ((s % 32768).toNat) (by norm_num) (by omega) hclt
    have hW : 0b00000 * 2 ^ 27 + r * 2 ^ 21 + (s % 32768).toNat * 2 ^ 6 ≠ 0 := by
      rcases eq_or_ne reg .ADCL with hra | hra
      · subst hra
        have hs0 : s ≠ 0 := by
          intro h0
          subst h0
          simp at hne
        have hcne : (s % 32768).toNat ≠ 0 := by omega
        omega
      · have hr0 : r ≠ 0 := by
          intro h0
          rw [h0] at hdr
          simp [decode_register] at hdr
          exact hra hdr.symm
        omega
    refine ⟨_, hE, ?_⟩
    simp only [decode_instruction, if_neg hW, hop', hr', hc']
    norm_num [except_bind_ok, hdr, decode_s114_of_emod hs1 hs2]
  | RDA addr coeff =>
    simp only [roundtripDomain, Bool.and_eq_true, decide_eq_true_eq] at hdom
    obtain ⟨haddr, hcoef⟩ := hdom
    obtain ⟨q, s, rfl, hq, hs1, hs2, hqs⟩ := gridS114Small_elim hcoef
    subst hqs
    have henc := encode_s114_grid hq (by omega) (by omega)
    have hsem : (s % 32768).toNat = s.toNat := by omega
    have hE : encode_instruction (.RDA addr (.finite ((s : ℚ) / 16384)))
        = .ok ((0b00001 <<< 27) ||| (addr <<< 11)
            ||| ((s % 32768).toNat &&& 0x7FF)) := by
      simp only [encode_instruction]
      rw [encode_address_ok haddr, except_bind_ok, henc, except_bind_ok]
    rw [hsem, pack_S2 0b00001 addr s.toNat (by omega) (by omega)] at hE
    obtain ⟨hop', ha', hc'⟩ :=
      decode_S2_word 0b00001 addr s.toNat (by norm_num) (by omega) (by omega)
    have hW : 0b00001 * 2 ^ 27 + addr * 2 ^ 11 + s.toNat ≠ 0 := by omega
    have hdc : decode_s114 s.toNat = .ok (.finite ((s : ℚ) / 16384)) := by
      rw [decode_s114_pos (by omega)]
      have hcast : ((s.toNat : ℕ) : ℚ) = (s : ℚ) := by
        have h3 : ((s.toNat : ℤ)) = s := Int.toNat_of_nonneg hs1
        exact_mod_cast h3
      rw [hcast]
    refine ⟨_, hE, ?_⟩
    simp only [decode_instruction, if_neg hW, hop', ha', hc']
    norm_num [except_bind_ok, hdc]
  | RMPA coeff =>
    simp only [roundtripDomain] at hdom
    obtain ⟨q, s, rfl, hq, hs1, hs2, hqs⟩ := gridS114_elim hdom
    subst hqs
    have henc := encode_s114_grid hq (by omega) (by omega)
    have hclt : (s % 32768).toNat < 32768 := by omega
    have hE : encode_instruction (.RMPA (.finite ((s : ℚ) / 16384)))
        = .ok ((0b00010 <<< 27) ||| ((s % 32768).toNat &&& 0x7FFFFF)) := by
      simp only [encode_instruction]
      rw [henc, except_bind_ok]
    rw [pack_S3 0b00010 ((s % 32768).toNat) hclt] at hE
    obtain ⟨hop', hc'⟩ := decode_S3_word 0b00010 ((s % 32768).toNat) (by norm_num) hclt
    have hW : 0b00010 * 2 ^ 27 + (s % 32768).toNat ≠ 0 := by omega
    refine ⟨_, hE, ?_⟩
    simp only [decode_instruction, if_neg hW, hop', hc']
    norm_num [except_bind_ok, decode_s114_of_emod hs1 hs2]
  | WRAX reg coeff =>
    simp only [roundtripDomain, Bool.and_eq_true] at hdom
    obtain ⟨hreg, hcoef⟩ := hdom
    obtain ⟨r, her, hr48, hdr⟩ := encode_register_good hreg
    obtain ⟨q, s, rfl, hq, hs1, hs2, hqs⟩ := gridS114_elim hcoef
    subst hqs
    have henc := encode_s114_grid hq (by omega) (by omega)
    have hclt : (s % 32768).toNat < 32768 := by omega
    have hE : encode_instruction (.WRAX reg (.finite ((s : ℚ) / 16384)))
        = .ok ((0b00110 <<< 27) ||| (r <<< 21)
            ||| (((s % 32768).toNat &&& 0x7FFF) <<< 6)) := by
      simp only [encode_instruction]
      rw [her, except_bind_ok, henc, except_bind_ok]
    rw [pack_S1 0b00110 r ((s % 32768).toNat) (by omega) hclt] at hE
    obtain ⟨hop', hr', hc'⟩ :=
      decode_S1_word 0b00110 r ((s % 32768).toNat) (by norm_num) (by omega) hclt
    have hW : 0b00110 * 2 ^ 27 + r * 2 ^ 21 + (s % 32768).toNat * 2 ^ 6 ≠ 0 := by omega
    refine ⟨_, hE, ?_⟩
    simp only [decode_instruction, if_neg hW, hop', hr', hc']
    norm_num [except_bind_ok, hdr, decode_s114_of_emod hs1 hs2]
  | WRA addr coeff =>
    simp only [roundtripDomain, Bool.and_eq_true, decide_eq_true_eq] at hdom
    obtain ⟨haddr, hcoef⟩ := hdom
    obtain ⟨q, s, rfl, hq, hs1, hs2, hqs⟩ := gridS114Small_elim hcoef
    subst hqs
    have henc := encode_s114_grid hq (by omega) (by omega)
    have hsem : (s % 32768).toNat = s.toNat := by omega
    have hE : encode_instruction (.WRA addr (.finite ((s : ℚ) / 16384)))
        = .ok ((0b00111 <<< 27) ||| (addr <<< 11)
            ||| ((s % 32768).toNat &&& 0x7FF)) := by
      simp only [encode_instruction]
      rw [encode_address_ok haddr, except_bind_ok, henc, except_bind_ok]
    rw [hsem, pack_S2 0b00111 addr s.toNat (by omega) (by omega)] at hE
    obtain ⟨hop', ha', hc'⟩ :=
      decode_S2_word 0b00111 addr s.toNat (by norm_num) (by omega) (by omega)
    have hW : 0b00111 * 2 ^ 27 + addr * 2 ^ 11 + s.toNat ≠ 0 := by omega
    have hdc : decode_s114 s.toNat = .ok (.finite ((s : ℚ) / 16384)) := by
      rw [decode_s114_pos (by omega)]
      have hcast : ((s.toNat : ℕ) : ℚ) = (s : ℚ) := by
        have h3 : ((s.toNat : ℤ)) = s := Int.toNat_of_nonneg hs1
        exact_mod_cast h3
      rw [hcast]
    refine ⟨_, hE, ?_⟩
    simp only [decode_instruction, if_neg hW, hop', ha', hc']
    norm_num [except_bind_ok, hdc]
  | WRAP addr coeff =>
    simp only [roundtripDomain, Bool.and_eq_true, decide_eq_true_eq] at hdom
    obtain ⟨haddr, hcoef⟩ := hdom
    obtain ⟨q, s, rfl, hq, hs1, hs2, hqs⟩ := gridS114Small_elim hcoef
    subst hqs
    have henc := encode_s114_grid hq (by omega) (by omega)
    have hsem : (s % 32768).toNat = s.toNat := by omega
    have hE : encode_instruction (.WRAP addr (.finite ((s : ℚ) / 16384)))
        = .ok ((0b01000 <<< 27) ||| (addr <<< 11)
            ||| ((s % 32768).toNat &&& 0x7FF)) := by
      simp only [encode_instruction]
      rw [encode_address_ok haddr, except_bind_ok, henc, except_bind_ok]
    rw [hsem, pack_S2 0b01000 addr s.toNat (by omega) (by omega)] at hE
    obtain ⟨hop', ha', hc'⟩ :=
      decode_S2_word 0b01000 addr s.toNat (by norm_num) (by omega) (by omega)
    have hW : 0b01000 * 2 ^ 27 + addr * 2 ^ 11 + s.toNat ≠ 0 := by omega
    have hdc : decode_s114 s.toNat = .ok (.finite ((s : ℚ) / 16384)) := by
      rw [decode_s114_pos (by omega)]
      have hcast : ((s.toNat : ℕ) : ℚ) = (s : ℚ) := by
        have h3 : ((s.toNat : ℤ)) = s := Int.toNat_of_nonneg hs1
        exact_mod_cast h3
      rw [hcast]
    refine ⟨_, hE, ?_⟩
    simp only [decode_instruction, if_neg hW, hop', ha', hc']
    norm_num [except_bind_ok, hdc]
  | MULX reg =>
    simp only [roundtripDomain] at hdom
    obtain ⟨r, her, hr48, hdr⟩ := encode_register_good hdom
    have hE : encode_instruction (.MULX reg)
        = .ok ((0b01010 <<< 27) ||| (r <<< 21)) := by
      simp only [encode_instruction]
      rw [her, except_bind_ok]
    rw [pack_S4 0b01010 r (by omega)] at hE
    obtain ⟨hop', hr'⟩ := decode_S4_word 0b01010 r (by norm_num) (by omega)
    have hW : 0b01010 * 2 ^ 27 + r * 2 ^ 21 ≠ 0 := by omega
    refine ⟨_, hE, ?_⟩
    simp only [decode_instruction, if_neg hW, hop', hr']
    norm_num [except_bind_ok, hdr]
  | RDFX reg coeff =>
    simp only [roundtripDomain, Bool.and_eq_true] at hdom
    obtain ⟨hreg, hcoef⟩ := hdom
    obtain ⟨r, her, hr48, hdr⟩ := encode_register_good hreg
    obtain ⟨q, s, rfl, hq, hs1, hs2, hqs⟩ := gridS114_elim hcoef
    subst hqs
    have henc := encode_s114_grid hq (by omega) (by omega)
    have hclt : (s % 32768).toNat < 32768 := by omega
    have hE : encode_instruction (.RDFX reg (.finite ((s : ℚ) / 16384)))
        = .ok ((0b01001 <<< 27) ||| (r <<< 21)
            ||| (((s % 32768).toNat &&& 0x7FFF) <<< 6)) := by
      simp only [encode_instruction]
      rw [her, except_bind_ok, henc, except_bind_ok]
    rw [pack_S1 0b01001 r ((s % 32768).toNat) (by omega) hclt] at hE
    obtain ⟨hop', hr', hc'⟩ :=
      decode_S1_word 0b01001 r ((s % 32768).toNat) (by norm_num) (by omega) hclt
    have hW : 0b01001 * 2 ^ 27 + r * 2 ^ 21 + (s % 32768).toNat * 2 ^ 6 ≠ 0 := by omega
    refine ⟨_, hE, ?_⟩
    simp only [decode_instruction, if_neg hW, hop', hr', hc']
    norm_num [except_bind_ok, hdr, decode_s114_of_emod hs1 hs2]
  | ABSA => exact ⟨0b01011 <<< 27, rfl, by decide⟩
  | LDAX reg =>
    simp only [roundtripDomain] at hdom
    obtain ⟨r, her, hr48, hdr⟩ := encode_register_good hdom
    have hE : encode_instruction (.LDAX reg)
        = .ok ((0b00101 <<< 27) ||| (r <<< 21)) := by
      simp only [encode_instruction]
      rw [her, except_bind_ok]
    rw [pack_S4 0b00101 r (by omega)] at hE
    obtain ⟨hop', hr'⟩ := decode_S4_word 0b00101 r (by norm_num) (by omega)
    have hW : 0b00101 * 2 ^ 27 + r * 2 ^ 21 ≠ 0 := by omega
    refine ⟨_, hE, ?_⟩
    simp only [decode_instruction, if_neg hW, hop', hr']
    norm_num [except_bind_ok, hdr]
  | RDFX2 reg coeff =>
    simp only [roundtripDomain, Bool.and_eq_true] at hdom
    obtain ⟨hreg, hcoef⟩ := hdom
    obtain ⟨r, her, hr48, hdr⟩ := encode_register_good hreg
    obtain ⟨q, s, rfl, hq, hs1, hs2, hqs⟩ := gridS114_elim hcoef
    subst hqs
    have henc := encode_s114_grid hq (by omega) (by omega)
    have hclt : (s % 32768).toNat < 32768 := by omega
    have hE : encode_instruction (.RDFX2 reg (.finite ((s : ℚ) / 16384)))
        = .ok ((0b01100 <<< 27) ||| (r <<< 21)
            ||| (((s % 32768).toNat &&& 0x7FFF) <<< 6)) := by
      simp only [encode_instruction]
      rw [her, except_bind_ok, henc, except_bind_ok]
    rw [pack_S1 0b01100 r ((s % 32768).toNat) (by omega) hclt] at hE
    obtain ⟨hop', hr', hc'⟩ :=
      decode_S1_word 0b01100 r ((s % 32768).toNat) (by norm_num) (by omega) hclt
    have hW : 0b01100 * 2 ^ 27 + r * 2 ^ 21 + (s % 32768).toNat * 2 ^ 6 ≠ 0 := by omega
    refine ⟨_, hE, ?_⟩
    simp only [decode_instruction, if_neg hW, hop', hr', hc']
    norm_num [except_bind_ok, hdr, decode_s114_of_emod hs1 hs2]
  | SOF coeff offset =>
    simp only [roundtripDomain, Bool.and_eq_true] at hdom
    obtain ⟨hcoef, hoff⟩ := hdom
    obtain ⟨q, s, rfl, hq, hs1, hs2, hqs⟩ := gridS114_elim hcoef
    obtain ⟨q2, t, hoffeq, hq2, ht1, ht2, hqt⟩ := gridS10_elim hoff
    subst hqs
    subst hqt
    subst hoffeq
    have henc := encode_s114_grid hq (by omega) (by omega)
    have henc2 := encode_s10_grid hq2 (by omega) (by omega)
    have hclt : (s % 32768).toNat < 32768 := by omega
    have htlt : (t % 2048).toNat < 2048 := by omega
    have hE : encode_instruction
          (.SOF (.finite ((s : ℚ) / 16384)) (.finite ((t : ℚ) / 512)))
        = .ok ((0b01101 <<< 27) ||| (((s % 32768).toNat &&& 0xFFFF) <<< 11)
            ||| ((t % 2048).toNat &&& 0x7FF)) := by
      simp only [encode_instruction]
      rw [henc, except_bind_ok, henc2, except_bind_ok]
    rw [pack_S6 0b01101 ((s % 32768).toNat) ((t % 2048).toNat) hclt htlt] at hE
    obtain ⟨hop', hc', ht'⟩ :=
      decode_S6_word 0b01101 ((s % 32768).toNat) ((t % 2048).toNat) (by norm_num) hclt htlt
    have hW : 0b01101 * 2 ^ 27 + (s % 32768).toNat * 2 ^ 11 + (t % 2048).toNat ≠ 0 := by
      omega
    refine ⟨_, hE, ?_⟩
    simp only [decode_instruction, if_neg hW, hop', hc', ht']
    norm_num [except_bind_ok, decode_s114_of_emod hs1 hs2, decode_s10_of_emod ht1 ht2]
  | AND mask =>
    simp only [roundtripDomain, decide_eq_true_eq] at hdom
    have hE : encode_instruction (.AND mask)
        = .ok ((0b01111 <<< 27) ||| (mask &&& 0xFFFFFF)) := rfl
    rw [pack_S7 0b01111 mask hdom] at hE
    obtain ⟨hop', hm'⟩ := decode_S7_word 0b01111 mask (by norm_num) hdom
    have hW : 0b01111 * 2 ^ 27 + mask ≠ 0 := by omega
    refine ⟨_, hE, ?_⟩
    simp only [decode_instruction, if_neg hW, hop', hm']
    norm_num
  | OR mask =>
    simp only [roundtripDomain, decide_eq_true_eq] at hdom
    have hE : encode_instruction (.OR mask)
        = .ok ((0b10000 <<< 27) ||| (mask &&& 0xFFFFFF)) := rfl
    rw [pack_S7 0b10000 mask hdom] at hE
    obtain ⟨hop', hm'⟩ := decode_S7_word 0b10000 mask (by norm_num) hdom
    have hW : 0b10000 * 2 ^ 27 + mask ≠ 0 := by omega
    refine ⟨_, hE, ?_⟩
    simp only [decode_instruction, if_neg hW, hop', hm']
    norm_num
  | XOR mask =>
    simp only [roundtripDomain, decide_eq_true_eq] at hdom
    have hE : encode_instruction (.XOR mask)
        = .ok ((0b10001 <<< 27) ||| (mask &&& 0xFFFFFF)) := rfl
    rw [pack_S7 0b10001 mask hdom] at hE
    obtain ⟨hop', hm'⟩ := decode_S7_word 0b10001 mask (by norm_num) hdom
    have hW : 0b10001 * 2 ^ 27 + mask ≠ 0 := by omega
    refine ⟨_, hE, ?_⟩
    simp only [decode_instruction, if_neg hW, hop', hm']
    norm_num
  | SHL => exact ⟨0b10010 <<< 27, rfl, by decide⟩
  | SHR => exact ⟨0b10011 <<< 27, rfl, by decide⟩
  | CLR => exact ⟨0b01110 <<< 27, rfl, by decide⟩
  | NOP => exact ⟨0, rfl, by decide⟩
  | EXP coeff offset =>
    simp only [roundtripDomain, Bool.and_eq_true] at hdom
    obtain ⟨hcoef, hoff⟩ := hdom
    obtain ⟨q, s, rfl, hq, hs1, hs2, hqs⟩ := gridS114_elim hcoef
    obtain ⟨q2, t, hoffeq, hq2, ht1, ht2, hqt⟩ := gridS10_elim hoff
    subst hqs
    subst hqt
    subst hoffeq
    have henc := encode_s114_grid hq (by omega) (by omega)
    have henc2 := encode_s10_grid hq2 (by omega) (by omega)
    have hclt : (s % 32768).toNat < 32768 := by omega
    have htlt : (t % 2048).toNat < 2048 := by omega
    have hE : encode_instruction
          (.EXP (.finite ((s : ℚ) / 16384)) (.finite ((t : ℚ) / 512)))
        = .ok ((0b10100 <<< 27) ||| (((s % 32768).toNat &&& 0xFFFF) <<< 11)
            ||| ((t % 2048).toNat &&& 0x7FF)) := by
      simp only [encode_instruction]
      rw [henc, except_bind_ok, henc2, except_bind_ok]
    rw [pack_S6 0b10100 ((s % 32768).toNat) ((t % 2048).toNat) hclt htlt] at hE
    obtain ⟨hop', hc', ht'⟩ :=
      decode_S6_word 0b10100 ((s % 32768).toNat) ((t % 2048).toNat) (by norm_num) hclt htlt
    have hW : 0b10100 * 2 ^ 27 + (s % 32768).toNat * 2 ^ 11 + (t % 2048).toNat ≠ 0 := by
      omega
    refine ⟨_, hE, ?_⟩
    simp only [decode_instruction, if_neg hW, hop', hc', ht']
    norm_num [except_bind_ok, decode_s114_of_emod hs1 hs2, decode_s10_of_emod ht1 ht2]
  | LOG coeff offset =>
    simp only [roundtripDomain, Bool.and_eq_true] at hdom
    obtain ⟨hcoef, hoff⟩ := hdom
    obtain ⟨q, s, rfl, hq, hs1, hs2, hqs⟩ := gridS114_elim hcoef
    obtain ⟨q2, t, hoffeq, hq2, ht1, ht2, hqt⟩ := gridS10_elim hoff
    subst hqs
    subst hqt
    subst hoffeq
    have henc := encode_s114_grid hq (by omega) (by omega)
    have henc2 := encode_s10_grid hq2 (by omega) (by omega)
    have hclt : (s % 32768).toNat < 32768 := by omega
    have htlt : (t % 2048).toNat < 2048 := by omega
    have hE : encode_instruction
          (.LOG (.finite ((s : ℚ) / 16384)) (.finite ((t : ℚ) / 512)))
        = .ok ((0b10101 <<< 27) ||| (((s % 32768).toNat &&& 0xFFFF) <<< 11)
            ||| ((t % 2048).toNat &&& 0x7FF)) := by
      simp only [encode_instruction]
      rw [henc, except_bind_ok, henc2, except_bind_ok]
    rw [pack_S6 0b10101 ((s % 32768).toNat) ((t % 2048).toNat) hclt htlt] at hE
    obtain ⟨hop', hc', ht'⟩ :=
      decode_S6_word 0b10101 ((s % 32768).toNat) ((t % 2048).toNat) (by norm_num) hclt htlt
    have hW : 0b10101 * 2 ^ 27 + (s % 32768).toNat * 2 ^ 11 + (t % 2048).toNat ≠ 0 := by
      omega
    refine ⟨_, hE, ?_⟩
    simp only [decode_instruction, if_neg hW, hop', hc', ht']
    norm_num [except_bind_ok, decode_s114_of_emod hs1 hs2, decode_s10_of_emod ht1 ht2]
  | SKP condition offset =>
    simp only [roundtripDomain, Bool.and_eq_true, decide_eq_true_eq] at hdom
    obtain ⟨ho1, ho2⟩ := hdom
    obtain ⟨hk, hdk⟩ := skip_condition_roundtrip condition
    have hf : i8ToU32 offset &&& 0x3F = offset.toNat := by
      unfold i8ToU32
      rw [andm_3F]
      omega
    have hE : encode_instruction (.SKP condition offset)
        = .ok ((0b10110 <<< 27) ||| (encode_skip_condition condition <<< 24)
            ||| ((i8ToU32 offset &&& 0x3F) <<< 18)) := rfl
    rw [hf, pack_S8 0b10110 (encode_skip_condition condition) offset.toNat hk
      (by omega)] at hE
    obtain ⟨hop', hk', hf'⟩ :=
      decode_S8_word 0b10110 (encode_skip_condition condition) offset.toNat
        (by norm_num) hk (by omega)
    have hW : 0b10110 * 2 ^ 27 + encode_skip_condition condition * 2 ^ 24
        + offset.toNat * 2 ^ 18 ≠ 0 := by omega
    have hoffc : ((offset.toNat : ℤ)) = offset := Int.toNat_of_nonneg ho1
    refine ⟨_, hE, ?_⟩
    simp only [decode_instruction, if_neg hW, hop', hk', hf']
    norm_num [except_bind_ok, hdk, u32ToI8_small offset.toNat (by omega), hoffc]
  | WLDS lfo freq amplitude =>
    simp only [roundtripDomain, Bool.and_eq_true, decide_eq_true_eq] at hdom
    obtain ⟨hfreq, hamp⟩ := hdom
    obtain ⟨hl, hdl⟩ := lfo_roundtrip lfo
    have hE : encode_instruction (.WLDS lfo freq amplitude)
        = .ok ((0b10111 <<< 27) ||| (encode_lfo lfo <<< 25)
            ||| ((freq &&& 0x1FF) <<< 9) ||| (amplitude &&& 0x1FF)) := rfl
    rw [pack_S9 0b10111 (encode_lfo lfo) freq amplitude hl hfreq hamp] at hE
    obtain ⟨hop', hl', hf', ha'⟩ :=
      decode_S9_word 0b10111 (encode_lfo lfo) freq amplitude (by norm_num) hl hfreq hamp
    have hW : 0b10111 * 2 ^ 27 + encode_lfo lfo * 2 ^ 25 + freq * 2 ^ 9 + amplitude
        ≠ 0 := by omega
    refine ⟨_, hE, ?_⟩
    simp only [decode_instruction, if_neg hW, hop', hl', hf', ha']
    norm_num [except_bind_ok, hdl]
  | JAM lfo =>
    obtain ⟨hl, hdl⟩ := lfo_roundtrip lfo
    have hE : encode_instruction (.JAM lfo)
        = .ok ((0b11000 <<< 27) ||| (encode_lfo lfo <<< 25)) := rfl
    rw [pack_S10 0b11000 (encode_lfo lfo) hl] at hE
    obtain ⟨hop', hl'⟩ := decode_S10_word 0b11000 (encode_lfo lfo) (by norm_num) hl
    have hW : 0b11000 * 2 ^ 27 + encode_lfo lfo * 2 ^ 25 ≠ 0 := by omega
    refine ⟨_, hE, ?_⟩
    simp only [decode_instruction, if_neg hW, hop', hl']
    norm_num [except_bind_ok, hdl]
  | CHO mode lfo flags addr =>
    simp only [roundtripDomain, decide_eq_true_eq] at hdom
    obtain ⟨hm, hdm⟩ := cho_mode_roundtrip mode
    obtain ⟨hl, hdl⟩ := lfo_roundtrip lfo
    obtain ⟨hfl, hdfl⟩ := cho_flags_roundtrip flags
    have hE : encode_instruction (.CHO mode lfo flags addr)
        = .ok ((0b11001 <<< 27) ||| (encode_cho_mode mode <<< 24)
            ||| (encode_lfo lfo <<< 22) ||| (encode_cho_flags flags <<< 16)
            ||| (addr &&& 0xFFFF)) := by
      simp only [encode_instruction]
      rw [encode_address_ok hdom, except_bind_ok]
    rw [pack_S11 0b11001 (encode_cho_mode mode) (encode_lfo lfo)
      (encode_cho_flags flags) addr hm hl hfl hdom] at hE
    obtain ⟨hop', hm', hl', hfl', ha'⟩ :=
      decode_S11_word 0b11001 (encode_cho_mode mode) (encode_lfo lfo)
        (encode_cho_flags flags) addr (by norm_num) hm hl hfl hdom
    have hW : 0b11001 * 2 ^ 27 + encode_cho_mode mode * 2 ^ 24 + encode_lfo lfo * 2 ^ 22
        + encode_cho_flags flags * 2 ^ 16 + addr ≠ 0 := by omega
    refine ⟨_, hE, ?_⟩
    simp only [decode_instruction, if_neg hW, hop', hm', hl', hfl', ha']
    norm_num [except_bind_ok, hdm, hdl, hdfl]

/-- C1 (witness): the amended round-trip theorem applied at a concrete
instruction inside the amended domain. -/
theorem c1_roundtrip_amended_witness :
    roundtripDomain (.WRAX .DACL (.finite (1 / 2))) = true
    ∧ ∃ w, encode_instruction (.WRAX .DACL (.finite (1 / 2))) = .ok w
        ∧ decode_instruction w = .ok (.WRAX .DACL (.finite (1 / 2))) :=
  have hd : roundtripDomain (.WRAX .DACL (.finite (1 / 2))) = true := by
    simp only [roundtripDomain, goodReg, gridS114]
    rw [show ((1 : ℚ) / 2 * 16384) = 8192 by norm_num]
    norm_num
  ⟨hd, c1_roundtrip_amended (.WRAX .DACL (.finite (1 / 2))) hd⟩

/-! Helper lemmas: totality and range behaviour of the scalar encoders. -/

theorem encode_register_total (reg : Register) : ∃ n, encode_register reg = .ok n := by
  cases reg
  case REG n =>
    by_cases h : n < 32
    · exact ⟨n + 16, by simp [encode_register, h]⟩
    · exact ⟨0, by simp [encode_register, h]⟩
  all_goals exact ⟨_, rfl⟩

theorem encode_s114_out {q : ℚ} (h : q < -2 ∨ 2 ≤ q) :
    encode_s114 (.finite q) = .error (.CoefficientOutOfRange (.finite q)) := by
  simp only [encode_s114, FloatVal.is_finite, FloatVal.containedIn]
  rw [if_pos ?cond]
  case cond =>
    rcases h with h | h
    · simp [show ¬(-2 ≤ q) from by linarith]
    · simp [show ¬(q < 2) from by linarith]

theorem encode_s114_nonfinite {v : FloatVal} (h : v.is_finite = false) :
    encode_s114 v = .error (.CoefficientOutOfRange v) := by
  cases v
  · simp [FloatVal.is_finite] at h
  all_goals rfl

theorem encode_s114_in {q : ℚ} (h1 : -2 ≤ q) (h2 : q < 2) :
    encode_s114 (.finite q) = .ok (roundHalfAway (q * 16384) % 32768).toNat := by
  simp only [encode_s114, FloatVal.is_finite, FloatVal.containedIn]
  rw [if_neg (by simp [h1, h2])]

theorem encode_s10_out {q : ℚ} (h : q < -1 ∨ 1 ≤ q) :
    encode_s10 (.finite q) = .error (.CoefficientOutOfRange (.finite q)) := by
  simp only [encode_s10, FloatVal.is_finite, FloatVal.containedIn]
  rw [if_pos ?cond]
  case cond =>
    rcases h with h | h
    · simp [show ¬(-1 ≤ q) from by linarith]
    · simp [show ¬(q < 1) from by linarith]

theorem encode_s10_nonfinite {v : FloatVal} (h : v.is_finite = false) :
    encode_s10 v = .error (.CoefficientOutOfRange v) := by
  cases v
  · simp [FloatVal.is_finite] at h
  all_goals rfl

theorem encode_s10_in {q : ℚ} (h1 : -1 ≤ q) (h2 : q < 1) :
    encode_s10 (.finite q) = .ok (roundHalfAway (q * 512) % 2048).toNat := by
  simp only [encode_s10, FloatVal.is_finite, FloatVal.containedIn]
  rw [if_neg (by simp [h1, h2])]

theorem encode_address_out {a : ℕ} (h : 32768 ≤ a) :
    encode_address a = .error (.AddressOutOfRange a 32767) := by
  simp only [encode_address, DELAY_RAM_SIZE]
  rw [if_pos (by omega)]

theorem encode_s114_lt {v : FloatVal} {c : ℕ} (h : encode_s114 v = .ok c) :
    c < 32768 := by
  cases v with
  | finite q =>
    simp only [encode_s114, FloatVal.is_finite, FloatVal.containedIn] at h
    split at h
    · exact absurd h (by simp)
    · have hc : c = (roundHalfAway (q * 16384) % 32768).toNat := by
        injection h with h'
        omega
      omega
  | inf => exact absurd h (by simp [encode_s114, FloatVal.is_finite])
  | negInf => exact absurd h (by simp [encode_s114, FloatVal.is_finite])
  | nan => exact absurd h (by simp [encode_s114, FloatVal.is_finite])

theorem decode_s114_total (c : ℕ) : ∃ v, decode_s114 c = .ok v := by
  unfold decode_s114
  split <;> exact ⟨_, rfl⟩

/-! Helper lemmas: the assembler's encode loop. -/

theorem encodeAll_spec :
    ∀ {l : List Instruction} {ws : List ℕ}, Assembler.encodeAll l = .ok ws →
      ws.length = l.length
      ∧ ∀ (k : ℕ) (i : Instruction), l[k]? = some i →
          ∃ w, ws[k]? = some w ∧ encode_instruction i = .ok w := by
  intro l
  induction l with
  | nil =>
    intro ws h
    simp only [Assembler.encodeAll] at h
    injection h with h'
    subst h'
    simp
  | cons i t ih =>
    intro ws h
    simp only [Assembler.encodeAll] at h
    cases he : encode_instruction i with
    | error e =>
      rw [he, except_bind_err] at h
      exact absurd h (by simp)
    | ok w =>
      rw [he, except_bind_ok] at h
      cases ht : Assembler.encodeAll t with
      | error e =>
        rw [ht, except_bind_err] at h
        exact absurd h (by simp)
      | ok ws' =>
        rw [ht, except_bind_ok] at h
        injection h with h'
        subst h'
        obtain ⟨hlen, hnth⟩ := ih ht
        refine ⟨by simp [hlen], ?_⟩
        intro k j hkj
        cases k with
        | zero =>
          simp only [List.getElem?_cons_zero, Option.some.injEq] at hkj
          subst hkj
          exact ⟨w, by simp, he⟩
        | succ k' =>
          simp only [List.getElem?_cons_succ] at hkj ⊢
          exact hnth k' j hkj

/-- C2 (counterexample).  A program of a single instruction — well under 128 —
whose coefficient 2.0 is not encodable: `assemble` returns an error, not a
Binary, so the claim's unconditional "returns a Binary" fails. -/
theorem c2_counterexample :
    (Program.new.add_statement
        (.Instruction (.RDAX .ADCL (.finite 2)))).instructions.length ≤ 128
    ∧ ∀ b : Binary,
        Assembler.new.assemble
            (Program.new.add_statement (.Instruction (.RDAX .ADCL (.finite 2))))
          ≠ .ok b := by
  constructor
  · decide
  · intro b hb
    have he : encode_s114 (.finite 2) = .error (.CoefficientOutOfRange (.finite 2)) :=
      encode_s114_out (Or.inr (by norm_num))
    have hei : encode_instruction (.RDAX .ADCL (.finite 2))
        = .error (.CoefficientOutOfRange (.finite 2)) := by
      simp only [encode_instruction]
      rw [show encode_register .ADCL = .ok 0 from rfl, except_bind_ok, he,
        except_bind_err]
    have hinstr : (Program.new.add_statement
        (.Instruction (.RDAX .ADCL (.finite 2)))).instructions
        = [.RDAX .ADCL (.finite 2)] := rfl
    simp only [Assembler.assemble, MAX_INSTRUCTIONS, hinstr] at hb
    rw [if_neg (by norm_num)] at hb
    simp only [Assembler.encodeAll, hei, except_bind_err] at hb
    simp at hb

/-- C2 (amended).  For a program of at most 128 instructions whose
instructions all encode successfully (the encode loop returns `ok ws`),
`assemble` returns the 128-word binary consisting of the encoded words in
source order followed by `0x00000000` padding, for any assembler
configuration. -/
theorem c2_assemble_layout (a : Assembler) (p : Program) (ws : List ℕ)
    (hN : p.instructions.length ≤ 128)
    (henc : Assembler.encodeAll p.instructions = .ok ws) :
    a.assemble p = .ok ⟨ws ++ List.replicate (128 - p.instructions.length) 0⟩
    ∧ ws.length = p.instructions.length
    ∧ (ws ++ List.replicate (128 - p.instructions.length) 0).length = 128
    ∧ (∀ k, k < p.instructions.length →
        ∃ i w, p.instructions[k]? = some i ∧ encode_instruction i = .ok w
          ∧ (ws ++ List.replicate (128 - p.instructions.length) 0)[k]? = some w)
    ∧ (∀ k, p.instructions.length ≤ k → k < 128 →
        (ws ++ List.replicate (128 - p.instructions.length) 0)[k]? = some 0) := by
  obtain ⟨hlen, hnth⟩ := encodeAll_spec henc
  refine ⟨?_, hlen, by simp [hlen]; omega, ?_, ?_⟩
  · simp only [Assembler.assemble, MAX_INSTRUCTIONS]
    rw [if_neg (by omega), henc, except_bind_ok, hlen]
    rcases a with ⟨opt⟩
    cases opt <;> simp [Assembler.optimize_binary, except_bind_ok]
  · intro k hk
    obtain ⟨i, hi⟩ : ∃ i, p.instructions[k]? = some i :=
      ⟨p.instructions[k], List.getElem?_eq_some_iff.mpr ⟨hk, rfl⟩⟩
    obtain ⟨w, hw, hew⟩ := hnth k i hi
    refine ⟨i, w, hi, hew, ?_⟩
    rw [List.getElem?_append, if_pos (by omega), hw]
  · intro k hk1 hk2
    rw [List.getElem?_append, if_neg (by omega), hlen]
    simp only [List.getElem?_replicate]
    rw [if_pos (by omega)]

/-- C2 (witness): the amended assembling theorem applied to the one-CLR
program. -/
theorem c2_assemble_layout_witness :
    Assembler.encodeAll
        (Program.new.add_statement (.Instruction .CLR)).instructions
      = .ok [0x70000000]
    ∧ Assembler.new.assemble (Program.new.add_statement (.Instruction .CLR))
        = .ok ⟨[0x70000000] ++ List.replicate
            (128 - (Program.new.add_statement
              (.Instruction .CLR)).instructions.length) 0⟩ :=
  ⟨by decide,
    (c2_assemble_layout Assembler.new
      (Program.new.add_statement (.Instruction .CLR)) [0x70000000]
      (by decide) (by decide)).1⟩

/-- C3.  Any program with more than 128 instructions is rejected by
`assemble` with `ProgramTooLarge` carrying the exact count and `max = 128`;
no binary is produced (the result is the error, for any assembler
configuration). -/
theorem c3_program_too_large (a : Assembler) (p : Program)
    (h : p.instructions.length > 128) :
    a.assemble p = .error (.ProgramTooLarge p.instructions.length 128) := by
  simp only [Assembler.assemble, MAX_INSTRUCTIONS]
  rw [if_pos h]

set_option maxRecDepth 8000 in
/-- C3 (witness): a program of 129 NOP instructions fails with size 129,
max 128. -/
theorem c3_program_too_large_witness :
    ((List.replicate 129 (Statement.Instruction .NOP)).foldl
        Program.add_statement Program.new).instructions.length = 129
    ∧ Assembler.new.assemble
        ((List.replicate 129 (Statement.Instruction .NOP)).foldl
          Program.add_statement Program.new)
      = .error (.ProgramTooLarge 129 128) := by
  have h129 : ((List.replicate 129 (Statement.Instruction .NOP)).foldl
      Program.add_statement Program.new).instructions.length = 129 := by decide
  refine ⟨h129, ?_⟩
  have := c3_program_too_large Assembler.new
    ((List.replicate 129 (Statement.Instruction .NOP)).foldl
      Program.add_statement Program.new) (by rw [h129]; omega)
  rw [h129] at this
  exact this

/-- C4.  The scalar encoders reject exactly the values outside their domains:
S1.14 coefficients outside `[-2.0, 2.0)` and non-finite values (with
`CoefficientOutOfRange` carrying the value), S.10 offsets outside
`[-1.0, 1.0)` and non-finite values likewise, delay addresses `≥ 32768` (with
`AddressOutOfRange`); inside the domains they succeed.  The same rejections
surface through `encode_instruction` (shown for RDAX, RDA and SOF). -/
theorem c4_encode_range_checks :
    (∀ q : ℚ, (q < -2 ∨ 2 ≤ q) →
        encode_s114 (.finite q) = .error (.CoefficientOutOfRange (.finite q)))
    ∧ (∀ v : FloatVal, v.is_finite = false →
        encode_s114 v = .error (.CoefficientOutOfRange v))
    ∧ (∀ q : ℚ, -2 ≤ q → q < 2 → ∃ n, encode_s114 (.finite q) = .ok n)
    ∧ (∀ q : ℚ, (q < -1 ∨ 1 ≤ q) →
        encode_s10 (.finite q) = .error (.CoefficientOutOfRange (.finite q)))
    ∧ (∀ v : FloatVal, v.is_finite = false →
        encode_s10 v = .error (.CoefficientOutOfRange v))
    ∧ (∀ q : ℚ, -1 ≤ q → q < 1 → ∃ n, encode_s10 (.finite q) = .ok n)
    ∧ (∀ a : ℕ, 32768 ≤ a → encode_address a = .error (.AddressOutOfRange a 32767))
    ∧ (∀ a : ℕ, a < 32768 → encode_address a = .ok a)
    ∧ (∀ (reg : Register) (q : ℚ), (q < -2 ∨ 2 ≤ q) →
        encode_instruction (.RDAX reg (.finite q))
          = .error (.CoefficientOutOfRange (.finite q)))
    ∧ (∀ (a : ℕ) (c : FloatVal), 32768 ≤ a →
        encode_instruction (.RDA a c) = .error (.AddressOutOfRange a 32767))
    ∧ (∀ qc qo : ℚ, -2 ≤ qc → qc < 2 → (qo < -1 ∨ 1 ≤ qo) →
        encode_instruction (.SOF (.finite qc) (.finite qo))
          = .error (.CoefficientOutOfRange (.finite qo))) := by
  refine ⟨fun q h => encode_s114_out h, fun v h => encode_s114_nonfinite h,
    fun q h1 h2 => ⟨_, encode_s114_in h1 h2⟩,
    fun q h => encode_s10_out h, fun v h => encode_s10_nonfinite h,
    fun q h1 h2 => ⟨_, encode_s10_in h1 h2⟩,
    fun a h => encode_address_out h, fun a h => encode_address_ok h,
    ?_, ?_, ?_⟩
  · intro reg q h
    obtain ⟨r, hr⟩ := encode_register_total reg
    simp only [encode_instruction]
    rw [hr, except_bind_ok, encode_s114_out h, except_bind_err]
  · intro a c h
    simp only [encode_instruction]
    rw [encode_address_out h, except_bind_err]
  · intro qc qo h1 h2 h
    simp only [encode_instruction]
    rw [encode_s114_in h1 h2, except_bind_ok, encode_s10_out h, except_bind_err]

/-- C4 (witness): the range checks applied at concrete boundary values. -/
theorem c4_encode_range_checks_witness :
    encode_s114 (.finite 2) = .error (.CoefficientOutOfRange (.finite 2))
    ∧ encode_s114 .nan = .error (.CoefficientOutOfRange .nan)
    ∧ (∃ n, encode_s114 (.finite 0) = .ok n)
    ∧ encode_s10 (.finite 1) = .error (.CoefficientOutOfRange (.finite 1))
    ∧ encode_address 32768 = .error (.AddressOutOfRange 32768 32767)
    ∧ encode_address 32767 = .ok 32767
    ∧ encode_instruction (.RDA 32768 .nan)
        = .error (.AddressOutOfRange 32768 32767) :=
  ⟨c4_encode_range_checks.1 2 (Or.inr (by norm_num)),
    c4_encode_range_checks.2.1 .nan rfl,
    c4_encode_range_checks.2.2.1 0 (by norm_num) (by norm_num),
    c4_encode_range_checks.2.2.2.1 1 (Or.inr (by norm_num)),
    c4_encode_range_checks.2.2.2.2.2.2.1 32768 (by norm_num),
    c4_encode_range_checks.2.2.2.2.2.2.2.1 32767 (by norm_num),
    c4_encode_range_checks.2.2.2.2.2.2.2.2.2.1 32768 .nan (by norm_num)⟩

/-- C10.  `encode_register` is total, and maps `ACC` and all eight LFO
rate/range registers to code 0, the code of `ADCL`; hence `WRAX` on
`SIN0_RATE` and on `ADCL` encode identically, and decoding such a word
yields `ADCL`. -/
theorem c10_register_aliasing :
    (∀ reg : Register, ∃ n, encode_register reg = .ok n)
    ∧ encode_register .ACC = .ok 0
    ∧ encode_register .SIN0_RATE = .ok 0
    ∧ encode_register .SIN0_RANGE = .ok 0
    ∧ encode_register .SIN1_RATE = .ok 0
    ∧ encode_register .SIN1_RANGE = .ok 0
    ∧ encode_register .RMP0_RATE = .ok 0
    ∧ encode_register .RMP0_RANGE = .ok 0
    ∧ encode_register .RMP1_RATE = .ok 0
    ∧ encode_register .RMP1_RANGE = .ok 0
    ∧ encode_register .ADCL = .ok 0
    ∧ (∀ coeff, encode_instruction (.WRAX .SIN0_RATE coeff)
        = encode_instruction (.WRAX .ADCL coeff))
    ∧ decode_register 0 = .ok .ADCL
    ∧ (∀ coeff w, encode_instruction (.WRAX .SIN0_RATE coeff) = .ok w →
        ∃ coeff2, decode_instruction w = .ok (.WRAX .ADCL coeff2)) := by
  refine ⟨encode_register_total, rfl, rfl, rfl, rfl, rfl, rfl, rfl, rfl, rfl, rfl,
    fun coeff => rfl, rfl, ?_⟩
  intro coeff w hw
  have hE0 : encode_instruction (.WRAX .SIN0_RATE coeff)
      = Except.bind (encode_s114 coeff)
          (fun c => .ok ((0b00110 <<< 27) ||| (0 <<< 21)
            ||| ((c &&& 0x7FFF) <<< 6))) := rfl
  rw [hE0] at hw
  cases hc : encode_s114 coeff with
  | error e =>
    rw [hc] at hw
    exact absurd hw (by simp [Except.bind])
  | ok c =>
    rw [hc] at hw
    have hw' : (0b00110 <<< 27) ||| (0 <<< 21) ||| ((c &&& 0x7FFF) <<< 6) = w := by
      injection hw
    have hclt := encode_s114_lt hc
    rw [pack_S1 0b00110 0 c (by norm_num) hclt] at hw'
    subst hw'
    obtain ⟨hop', hr', hc'⟩ := decode_S1_word 0b00110 0 c (by norm_num) (by norm_num) hclt
    have hW : 0b00110 * 2 ^ 27 + 0 * 2 ^ 21 + c * 2 ^ 6 ≠ 0 := by omega
    obtain ⟨v, hv⟩ := decode_s114_total c
    refine ⟨v, ?_⟩
    simp only [decode_instruction, if_neg hW, hop', hr', hc']
    norm_num [except_bind_ok, show decode_register 0 = .ok .ADCL from rfl, hv]

/-- C10 (witness): the aliasing consequence applied at coefficient 0.0. -/
theorem c10_register_aliasing_witness :
    encode_instruction (.WRAX .SIN0_RATE (.finite 0)) = .ok 805306368
    ∧ ∃ coeff2, decode_instruction 805306368 = .ok (.WRAX .ADCL coeff2) :=
  have he : encode_instruction (.WRAX .SIN0_RATE (.finite 0)) = .ok 805306368 := by
    have h0 : encode_s114 (.finite 0) = .ok 0 := by
      have hr : roundHalfAway (0 : ℚ) = 0 := by
        unfold roundHalfAway
        rw [if_pos (by norm_num)]
        norm_num
      simp only [encode_s114, FloatVal.is_finite, FloatVal.containedIn]
      rw [if_neg (by norm_num)]
      rw [show ((0 : ℚ) * 16384) = 0 by norm_num, hr]
      decide
    simp only [encode_instruction]
    rw [show encode_register .SIN0_RATE = .ok 0 from rfl, except_bind_ok, h0,
      except_bind_ok]
    decide
  ⟨he, c10_register_aliasing.2.2.2.2.2.2.2.2.2.2.2.2.2 (.finite 0) 805306368 he⟩

/-! Helper lemmas: trailing-zero stripping and the disassembler loop. -/

theorem dropTrailingZeros_all_zero {ws : List ℕ} (h : ws.all (fun w => w == 0) = true) :
    dropTrailingZeros ws = [] := by
  unfold dropTrailingZeros
  rw [List.dropWhile_eq_nil_iff.mpr, List.reverse_nil]
  intro x hx
  exact List.all_eq_true.mp h x (List.mem_reverse.mp hx)

theorem dropTrailingZeros_cons {w : ℕ} {rest : List ℕ}
    (h : (w :: rest).all (fun x => x == 0) = false) :
    dropTrailingZeros (w :: rest) = w :: dropTrailingZeros rest := by
  unfold dropTrailingZeros
  rw [List.reverse_cons, List.dropWhile_append]
  by_cases hrest : rest.all (fun x => x == 0) = true
  · have hw : (w == 0) = false := by
      simp only [List.all_cons, hrest, Bool.and_true] at h
      exact h
    have hdrop : rest.reverse.dropWhile (fun x => x == 0) = [] := by
      rw [List.dropWhile_eq_nil_iff]
      intro x hx
      exact List.all_eq_true.mp hrest x (List.mem_reverse.mp hx)
    rw [hdrop]
    simp [List.dropWhile_cons, hw, hdrop]
  · have hne : rest.reverse.dropWhile (fun x => x == 0) ≠ [] := by
      intro hnil
      apply hrest
      rw [List.all_eq_true]
      intro x hx
      exact List.dropWhile_eq_nil_iff.mp hnil x (List.mem_reverse.mpr hx)
    rw [if_neg (by simpa using hne)]
    simp [List.reverse_append]

theorem except_bind_ok_inv {ε α β : Type} {x : Except ε α} {f : α → Except ε β}
    {b : β} (h : x >>= f = .ok b) : ∃ a, x = .ok a ∧ f a = .ok b := by
  cases x with
  | ok a => exact ⟨a, rfl, h⟩
  | error e => exact absurd h (by simp [except_bind_err])

theorem disassembleWords_strips {ws : List ℕ} :
    ∀ {insts : List Instruction},
      (dropTrailingZeros ws).mapM decode_instruction = .ok insts →
      Disassembler.disassembleWords true ws = .ok (insts.map Statement.Instruction) := by
  induction ws with
  | nil =>
    intro insts h
    simp only [dropTrailingZeros, List.reverse_nil, List.dropWhile_nil,
      List.mapM_nil] at h
    have : insts = [] := by
      injection h with h'
      exact h'.symm
    subst this
    rfl
  | cons w rest ih =>
    intro insts h
    by_cases hall : (w :: rest).all (fun x => x == 0) = true
    · rw [dropTrailingZeros_all_zero hall, List.mapM_nil] at h
      have hinsts : insts = [] := by
        injection h with h'
        exact h'.symm
      subst hinsts
      have hw0 : w = 0 := by
        simp only [List.all_cons, Bool.and_eq_true, beq_iff_eq] at hall
        exact hall.1
      subst hw0
      simp only [Disassembler.disassembleWords,
        show decode_instruction 0 = .ok .NOP from rfl, except_bind_ok]
      rw [if_pos ⟨by simp, by simp, hall⟩]
      rfl
    · rw [dropTrailingZeros_cons (Bool.eq_false_iff.mpr hall), List.mapM_cons] at h
      obtain ⟨i, hdw, h⟩ := except_bind_ok_inv h
      obtain ⟨tl, hmt, h⟩ := except_bind_ok_inv h
      have hinsts : insts = i :: tl := by
        simp only [pure, Except.pure] at h
        injection h with h'
        exact h'.symm
      subst hinsts
      simp only [Disassembler.disassembleWords, hdw, except_bind_ok]
      rw [if_neg (by
        intro hcond
        exact absurd hcond.2.2 hall)]
      rw [ih hmt, except_bind_ok]
      rfl

/-- C5.  With the default configuration (`strip_nops` on), disassembling a
128-word binary of decodable words emits exactly the decodes of the binary
with its maximal all-zero tail removed: emission stops at a NOP word if and
only if every word from there to the end is `0x00000000`, and a NOP followed
by any non-zero word is emitted and emission continues. -/
theorem c5_strip_nops_tail_only (ws : List ℕ) (insts : List Instruction)
    (_h128 : ws.length = 128)
    (hdec : (dropTrailingZeros ws).mapM decode_instruction = .ok insts) :
    Disassembler.new.disassemble ⟨ws⟩
      = .ok ((insts.map Statement.Instruction).foldl Program.add_statement Program.new)
    ∧ ((insts.map Statement.Instruction).foldl Program.add_statement
        Program.new).statements = insts.map Statement.Instruction := by
  constructor
  · simp only [Disassembler.disassemble, Disassembler.new]
    rw [disassembleWords_strips hdec, except_bind_ok]
  · have hgen : ∀ (l : List Statement) (p : Program),
        (l.foldl Program.add_statement p).statements = p.statements ++ l := by
      intro l
      induction l with
      | nil => intro p; simp
      | cons s t iht =>
        intro p
        have hone : (p.add_statement s).statements = p.statements ++ [s] := by
          cases s <;> rfl
        simp only [List.foldl_cons, iht, hone, List.append_assoc, List.cons_append,
          List.nil_append]
    rw [hgen]
    rfl

/-- C5 (witness): a 128-word binary with an interior NOP between two CLR
words and a 125-word zero tail disassembles to CLR, NOP, CLR — the interior
NOP is preserved, the tail is stripped. -/
theorem c5_strip_nops_tail_only_witness :
    (0x70000000 :: 0 :: 0x70000000 :: List.replicate 125 0).length = 128
    ∧ (dropTrailingZeros (0x70000000 :: 0 :: 0x70000000 :: List.replicate 125 0)).mapM
        decode_instruction = .ok [.CLR, .NOP, .CLR]
    ∧ Disassembler.new.disassemble ⟨0x70000000 :: 0 :: 0x70000000 :: List.replicate 125 0⟩
        = .ok ((([Instruction.CLR, .NOP, .CLR].map Statement.Instruction).foldl
            Program.add_statement Program.new)) :=
  ⟨by simp, by decide,
    (c5_strip_nops_tail_only (0x70000000 :: 0 :: 0x70000000 :: List.replicate 125 0)
      [.CLR, .NOP, .CLR] (by simp) (by decide)).1⟩

/-! Helper lemmas: byte serialization. -/

theorem to_bytes_length (l : List ℕ) :
    ((l.map Binary.to_be_bytes).flatten).length = 4 * l.length := by
  induction l with
  | nil => simp
  | cons w t ih =>
    simp only [List.map_cons, List.flatten_cons, List.length_append, ih,
      List.length_cons]
    simp [Binary.to_be_bytes]
    omega

theorem to_be_of_from_be {b0 b1 b2 b3 : ℕ} (h0 : b0 < 256) (h1 : b1 < 256)
    (h2 : b2 < 256) (h3 : b3 < 256) :
    Binary.to_be_bytes (Binary.from_be_bytes b0 b1 b2 b3) = [b0, b1, b2, b3] := by
  simp only [Binary.to_be_bytes, Binary.from_be_bytes, List.cons.injEq, and_true]
  refine ⟨by omega, by omega, by omega, by omega⟩

theorem wordsOfBytes_spec :
    ∀ (n : ℕ) (bytes : List ℕ), bytes.length = 4 * n → (∀ x ∈ bytes, x < 256) →
      ((Binary.wordsOfBytes bytes).map Binary.to_be_bytes).flatten = bytes
      ∧ (Binary.wordsOfBytes bytes).length = n := by
  intro n
  induction n with
  | zero =>
    intro bytes h _
    have hnil : bytes = [] := List.eq_nil_of_length_eq_zero (by omega)
    subst hnil
    exact ⟨rfl, rfl⟩
  | succ m ih =>
    intro bytes h hb
    match bytes, h with
    | b0 :: b1 :: b2 :: b3 :: rest, h =>
      have hrest : rest.length = 4 * m := by
        simp only [List.length_cons] at h
        omega
      have hbrest : ∀ x ∈ rest, x < 256 := fun x hx => hb x (by simp [hx])
      obtain ⟨ihf, ihl⟩ := ih rest hrest hbrest
      constructor
      · simp only [Binary.wordsOfBytes, List.map_cons, List.flatten_cons, ihf]
        rw [to_be_of_from_be (hb b0 (by simp)) (hb b1 (by simp)) (hb b2 (by simp))
          (hb b3 (by simp))]
        rfl
      · simp only [Binary.wordsOfBytes, List.length_cons, ihl]

theorem assemble_ok_length {a : Assembler} {p : Program} {b : Binary}
    (h : a.assemble p = .ok b) : b.instructions.length = 128 := by
  simp only [Assembler.assemble, MAX_INSTRUCTIONS] at h
  split at h
  · exact absurd h (by simp)
  · rename_i hle
    obtain ⟨ws, hws, h⟩ := except_bind_ok_inv h
    obtain ⟨hlen, _⟩ := encodeAll_spec hws
    split at h
    all_goals
      simp only [Assembler.optimize_binary, except_bind_ok] at h
      injection h with h'
      rw [← h']
      simp only [List.length_append, List.length_replicate]
      omega

/-- C6.  `to_bytes` of a completed 128-word Binary (such as one produced by
`assemble` or `from_bytes`) is exactly 512 bytes, the big-endian bytes of
each word in order; `from_bytes` rejects any buffer whose length is not 512
with `InvalidBinarySize`; and for every 512-byte buffer,
`to_bytes (from_bytes b) = b`. -/
theorem c6_bytes_roundtrip :
    (∀ b : Binary, b.instructions.length = 128 → (Binary.to_bytes b).length = 512)
    ∧ (∀ (a : Assembler) (p : Program) (b : Binary), a.assemble p = .ok b →
        (Binary.to_bytes b).length = 512)
    ∧ (∀ bytes : List ℕ, bytes.length ≠ 512 →
        Binary.from_bytes bytes = .error (.InvalidBinarySize bytes.length 512))
    ∧ (∀ bytes : List ℕ, bytes.length = 512 → (∀ x ∈ bytes, x < 256) →
        ∃ bin, Binary.from_bytes bytes = .ok bin
          ∧ Binary.to_bytes bin = bytes ∧ bin.instructions.length = 128) := by
  refine ⟨?_, ?_, ?_, ?_⟩
  · intro b hb
    simp only [Binary.to_bytes, to_bytes_length, hb]
  · intro a p b h
    simp only [Binary.to_bytes, to_bytes_length, assemble_ok_length h]
  · intro bytes h
    simp only [Binary.from_bytes]
    rw [if_pos h]
  · intro bytes hlen hb
    obtain ⟨hflat, hl⟩ := wordsOfBytes_spec 128 bytes (by omega) hb
    refine ⟨⟨Binary.wordsOfBytes bytes⟩, ?_, hflat, hl⟩
    simp only [Binary.from_bytes]
    rw [if_neg (by omega)]

set_option maxRecDepth 8000 in
/-- C6 (witness): the byte-level properties applied at concrete buffers. -/
theorem c6_bytes_roundtrip_witness :
    Binary.from_bytes [1, 2, 3] = .error (.InvalidBinarySize 3 512)
    ∧ (∃ bin, Binary.from_bytes (List.replicate 512 7) = .ok bin
        ∧ Binary.to_bytes bin = List.replicate 512 7
        ∧ bin.instructions.length = 128)
    ∧ (Binary.to_bytes ⟨List.replicate 128 0⟩).length = 512 :=
  ⟨c6_bytes_roundtrip.2.2.1 [1, 2, 3] (by simp),
    c6_bytes_roundtrip.2.2.2 (List.replicate 512 7) (by simp)
      (fun x hx => by
        have := List.eq_of_mem_replicate hx
        omega),
    c6_bytes_roundtrip.1 ⟨List.replicate 128 0⟩ (by simp)⟩

/-! Helper lemmas: Intel-HEX records. -/

theorem to_hex_head (b : Binary) : (Binary.to_hex b).head? = some ':' := by
  unfold Binary.to_hex
  cases hc : Binary.chunks16 b.to_bytes with
  | nil => rfl
  | cons c cs =>
    rw [show (c :: cs).enum = (0, c) :: cs.enumFrom 1 from rfl]
    rw [List.map_cons, List.flatten_cons]
    rfl

/-- C7.  The Intel-HEX output of a completed 128-word Binary starts with a
colon, ends with the literal end-of-file line, and every data record's
checksum byte makes length + address-high + address-low + data-sum +
checksum vanish mod 256. -/
theorem c7_hex_format (b : Binary) (_h128 : b.instructions.length = 128) :
    (Binary.to_hex b).head? = some ':'
    ∧ Binary.eofRecord <:+ Binary.to_hex b
    ∧ Binary.eofRecord = [':', '0', '0', '0', '0', '0', '0', '0', '1', 'F', 'F', '\n']
    ∧ ∀ (i : ℕ) (chunk : List ℕ), (i, chunk) ∈ (Binary.chunks16 b.to_bytes).enum →
        (chunk.length + (i * 16) / 256 + (i * 16) % 256 + chunk.sum
          + Binary.hexChecksum (i * 16) chunk) % 256 = 0 := by
  refine ⟨to_hex_head b, ⟨_, rfl⟩, rfl, ?_⟩
  intro i chunk _
  unfold Binary.hexChecksum
  omega

/-- C7 (witness): the Intel-HEX format theorem applied to the all-NOP
binary. -/
theorem c7_hex_format_witness :
    (⟨List.replicate 128 0⟩ : Binary).instructions.length = 128
    ∧ (Binary.to_hex ⟨List.replicate 128 0⟩).head? = some ':'
    ∧ Binary.eofRecord <:+ Binary.to_hex ⟨List.replicate 128 0⟩ :=
  ⟨by simp,
    (c7_hex_format ⟨List.replicate 128 0⟩ (by simp)).1,
    (c7_hex_format ⟨List.replicate 128 0⟩ (by simp)).2.1⟩

/-! Helper lemmas: CHO-flag parsing. -/

theorem parse_cho_flags_spec {p : Parser} {fl : ChoFlags} {p' : Parser}
    (h : p.parse_cho_flags = .ok (fl, p')) :
    fl = ⟨false, false, false, false, false⟩
    ∧ p'.pos = p.pos + 1 ∧ p'.tokens = p.tokens := by
  simp only [Parser.parse_cho_flags, Parser.advance_checked] at h
  rcases htok : p.tokens[p.pos]? with _ | ⟨tr, sp⟩
  · rw [htok] at h
    exact absurd h (by simp [except_bind_err])
  · rcases tr with e | t
    · rw [htok] at h
      exact absurd h (by simp [except_bind_err])
    · rw [htok, except_bind_ok] at h
      injection h with h'
      have h1 : (⟨false, false, false, false, false⟩ : ChoFlags) = fl :=
        congrArg Prod.fst h'
      have h2 : ({ p with pos := p.pos + 1 } : Parser) = p' :=
        congrArg Prod.snd h'
      refine ⟨h1.symm, ?_, ?_⟩
      · rw [← h2]
      · rw [← h2]

/-- C8.  `parse_cho_flags` consumes exactly one token (whatever it is) and
always returns default (all-false) flags; consequently every CHO instruction
that `parse_instruction` successfully parses carries all-false flags,
regardless of the flag token written in the source. -/
theorem c8_cho_flags_default :
    (∀ (p : Parser) (fl : ChoFlags) (p' : Parser),
        p.parse_cho_flags = .ok (fl, p') →
          fl = ⟨false, false, false, false, false⟩
          ∧ p'.pos = p.pos + 1 ∧ p'.tokens = p.tokens)
    ∧ (∀ (p : Parser) (inst : Instruction) (p' : Parser) (m : ChoMode) (l : Lfo)
        (fl : ChoFlags) (a : ℕ),
        p.parse_instruction = .ok (inst, p') → inst = .CHO m l fl a →
          fl = ⟨false, false, false, false, false⟩) := by
  refine ⟨fun p fl p' h => parse_cho_flags_spec h, ?_⟩
  intro p inst p' m l fl a h hinst
  subst hinst
  simp only [Parser.parse_instruction] at h
  obtain ⟨⟨⟨t, sp⟩, p1⟩, hx0, h⟩ := except_bind_ok_inv h
  cases t
  case CHO =>
    simp only at h
    obtain ⟨⟨mode1, p2⟩, hx1, h⟩ := except_bind_ok_inv h
    obtain ⟨p3, hx2, h⟩ := except_bind_ok_inv h
    obtain ⟨⟨lfo1, p4⟩, hx3, h⟩ := except_bind_ok_inv h
    obtain ⟨p5, hx4, h⟩ := except_bind_ok_inv h
    obtain ⟨⟨flags1, p6⟩, hx5, h⟩ := except_bind_ok_inv h
    obtain ⟨p7, hx6, h⟩ := except_bind_ok_inv h
    obtain ⟨⟨num1, p8⟩, hx7, h⟩ := except_bind_ok_inv h
    have hfl : flags1 = fl := by
      injection h with h'
      have := congrArg Prod.fst h'
      simp only at this
      injection this
    rw [← hfl]
    exact (parse_cho_flags_spec hx5).1
  all_goals
    simp only at h
    repeat obtain ⟨_, _, h⟩ := except_bind_ok_inv h
    simp at h

/-- C8 (witness): the flag-parsing theorem applied to a concrete token list
in which the written flag token is RPTR2 — the parsed flags are still all
false. -/
theorem c8_cho_flags_default_witness :
    (Parser.mk [(.ok .RPTR2, (0, 5))] 0).parse_cho_flags
        = .ok (⟨false, false, false, false, false⟩, Parser.mk [(.ok .RPTR2, (0, 5))] 1)
    ∧ ((⟨false, false, false, false, false⟩ : ChoFlags)
        = ⟨false, false, false, false, false⟩
      ∧ (Parser.mk [(.ok .RPTR2, (0, 5))] 1).pos
          = (Parser.mk [(.ok .RPTR2, (0, 5))] 0).pos + 1
      ∧ (Parser.mk [(.ok .RPTR2, (0, 5))] 1).tokens
          = (Parser.mk [(.ok .RPTR2, (0, 5))] 0).tokens) :=
  ⟨rfl,
    c8_cho_flags_default.1 (Parser.mk [(.ok .RPTR2, (0, 5))] 0)
      ⟨false, false, false, false, false⟩ (Parser.mk [(.ok .RPTR2, (0, 5))] 1)
      rfl⟩

/-! Helper lemmas: the label table built by `add_statement`. -/

theorem add_statement_statements (p : Program) (s : Statement) :
    (p.add_statement s).statements = p.statements ++ [s] := by
  cases s <;> rfl

theorem foldl_add_statements (l : List Statement) :
    ∀ p : Program, (l.foldl Program.add_statement p).statements = p.statements ++ l := by
  induction l with
  | nil => intro p; simp
  | cons s t ih =>
    intro p
    simp only [List.foldl_cons, ih, add_statement_statements, List.append_assoc,
      List.cons_append, List.nil_append]

theorem resolve_foldl_fresh (l : List Statement) :
    ∀ (p : Program) (name : String),
      (∀ s' ∈ l, (∀ i, s' ≠ .Label name ∧ s' ≠ .LabeledInstruction name i)) →
      (l.foldl Program.add_statement p).resolve_label name = p.resolve_label name := by
  induction l with
  | nil => intro p name _; rfl
  | cons s t ih =>
    intro p name hfresh
    simp only [List.foldl_cons]
    rw [ih _ name (fun s' hs' => hfresh s' (by simp [hs']))]
    cases s with
    | Instruction i => rfl
    | Label nm =>
      have hne : nm ≠ name := by
        intro heq
        subst heq
        exact ((hfresh (.Label nm) (by simp) .NOP).1) rfl
      have hbeq : (name == nm) = false := beq_eq_false_iff_ne.mpr (Ne.symm hne)
      simp only [Program.add_statement, Program.resolve_label, List.lookup, hbeq]
    | LabeledInstruction nm i =>
      have hne : nm ≠ name := by
        intro heq
        subst heq
        exact ((hfresh (.LabeledInstruction nm i) (by simp) i).2) rfl
      have hbeq : (name == nm) = false := beq_eq_false_iff_ne.mpr (Ne.symm hne)
      simp only [Program.add_statement, Program.resolve_label, List.lookup, hbeq]

theorem resolve_add_label (p : Program) (name : String) :
    (p.add_statement (.Label name)).resolve_label name = some p.instruction_count := by
  simp [Program.add_statement, Program.resolve_label, List.lookup]

theorem resolve_add_labeled (p : Program) (name : String) (i : Instruction) :
    (p.add_statement (.LabeledInstruction name i)).resolve_label name
      = some p.instruction_count := by
  simp [Program.add_statement, Program.resolve_label, List.lookup]

theorem instruction_count_eq_length (p : Program) :
    p.instruction_count = p.instructions.length := by
  unfold Program.instruction_count Program.instructions
  induction p.statements with
  | nil => rfl
  | cons s t ih =>
    cases s <;> simp [List.filter_cons, List.filterMap_cons, ih]

/-- C9.  Building a program by `add_statement` calls, a label (bare or
attached to an instruction) resolves to the number of instruction-bearing
statements appended strictly before it — equivalently the index of the next
instruction emitted after it — provided no later statement rebinds the same
name; and bare `Label` statements contribute nothing to
`Program.instructions`. -/
theorem c9_label_indices (pre post : List Statement) (s : Statement) (name : String)
    (hs : s = .Label name ∨ ∃ i, s = .LabeledInstruction name i)
    (hfresh : ∀ s' ∈ post, (∀ i, s' ≠ .Label name ∧ s' ≠ .LabeledInstruction name i)) :
    ((pre ++ s :: post).foldl Program.add_statement Program.new).resolve_label name
      = some ((pre.foldl Program.add_statement Program.new).instructions.length)
    ∧ (∀ (p : Program) (nm : String),
        (p.add_statement (.Label nm)).instructions = p.instructions) := by
  constructor
  · rw [List.foldl_append, List.foldl_cons]
    rw [resolve_foldl_fresh post _ name hfresh]
    rcases hs with rfl | ⟨i, rfl⟩
    · rw [resolve_add_label, instruction_count_eq_length]
    · rw [resolve_add_labeled, instruction_count_eq_length]
  · intro p nm
    unfold Program.instructions
    rw [add_statement_statements]
    simp [List.filterMap_append]

/-- C9 (witness): the label-index theorem at a concrete statement sequence:
one instruction, then a bare label, then another instruction — the label
resolves to index 1. -/
theorem c9_label_indices_witness :
    (([Statement.Instruction .CLR] ++ Statement.Label r"lp"
        :: [Statement.Instruction .NOP]).foldl Program.add_statement
          Program.new).resolve_label r"lp"
      = some (([Statement.Instruction .CLR].foldl Program.add_statement
          Program.new).instructions.length)
    ∧ (([Statement.Instruction .CLR].foldl Program.add_statement
        Program.new).instructions.length = 1) :=
  ⟨(c9_label_indices [Statement.Instruction .CLR] [Statement.Instruction .NOP]
      (Statement.Label r"lp") r"lp" (Or.inl rfl)
      (fun s' hs' => by
        simp only [List.mem_singleton] at hs'
        subst hs'
        exact fun i => ⟨by simp, by simp⟩)).1,
    by decide⟩

end FV1
